import Mathlib

/-!
Verification development for the sanelens compose supervisor.

The definitions below are shallow embeddings of the Rust sources:
  * `src/infra/derive.rs`   — compose derivation (port parsing, service rewrite)
  * `src/infra/traffic.rs`  — access-record promotion, body normalization
  * `src/support/traffic.rs`— traffic edge/call hub
  * `src/support/logging.rs`— log hub
  * `src/app/runner.rs`     — derivation retry, traffic log worker, signal handling
  * `src/app/mod.rs`        — final exit-code selection

Strings are modelled as `List Char` where the Rust code slices at byte
boundaries of ASCII separators (equivalent at those cut points), and as
`String` elsewhere.  Machine integers are `Nat`/`Int` with explicit range
checks where the Rust code checks them.  External collaborators (the std
socket-address parsers, serde YAML/JSON parsing) are parameters.
-/

namespace Sanelens

/-! ## Basic character-list helpers (models of Rust `str` operations) -/

/-- Model of Rust `str::trim` restricted to one side: drop leading characters
satisfying `p`, then trailing ones. -/
def dropAround (p : Char → Bool) (l : List Char) : List Char :=
  ((l.dropWhile p).reverse.dropWhile p).reverse

/-- Model of Rust `str::trim` (leading and trailing whitespace removed). -/
def trimL (l : List Char) : List Char :=
  dropAround Char.isWhitespace l

/-- Model of Rust `str::trim_matches(c)` (all leading and trailing `c`). -/
def trimMatchesChar (c : Char) (l : List Char) : List Char :=
  dropAround (fun x => x == c) l

/-- Model of Rust `str::strip_suffix(c)`: some iff the list ends with `c`. -/
def stripSuffixChar (c : Char) (l : List Char) : Option (List Char) :=
  if l.getLast? = some c then some l.dropLast else none

/-- Model of `strip_prefix("$\x7b")` followed by `strip_suffix('\x7d')` as
used by `parse_port_token` and `rewrite_default_expr` in
`src/infra/derive.rs`. -/
def stripEnvInner (l : List Char) : Option (List Char) :=
  match l with
  | '$' :: '{' :: rest => stripSuffixChar '}' rest
  | _ => none

def splitOnceTwo (a b : Char) : List Char → Option (List Char × List Char)
  | [] => none
  | [_] => none
  | x :: y :: rest =>
    if x = a ∧ y = b then some ([], rest)
    else
      match splitOnceTwo a b (y :: rest) with
      | some (pre, post) => some (x :: pre, post)
      | none => none

def splitOnceOne (a : Char) : List Char → Option (List Char × List Char)
  | [] => none
  | x :: rest =>
    if x = a then some ([], rest)
    else
      match splitOnceOne a rest with
      | some (pre, post) => some (x :: pre, post)
      | none => none

def rustParseU16 (s : List Char) : Option Nat :=
  let digits := match s with
    | '+' :: rest => rest
    | _ => s
  if digits.isEmpty then none
  else if digits.all Char.isDigit then
    let v := digits.foldl (fun a c => a * 10 + (c.toNat - '0'.toNat)) 0
    if v ≤ 65535 then some v else none
  else none

/-! ## Port parsing (`src/infra/derive.rs` lines 659–723) -/

/-- The default-value part of `${VAR:-N}` / `${VAR-N}`: `split_once(":-")`
falling back to `split_once('-')`, keeping the part after the separator
(`parse_port_token`, `src/infra/derive.rs` lines 714–719). -/
def envDefault (inner : List Char) : Option (List Char) :=
  match splitOnceTwo ':' '-' inner with
  | some pd => some pd.2
  | none =>
    match splitOnceOne '-' inner with
    | some pd => some pd.2
    | none => none

def parsePortTokenF : Nat → List Char → Option Nat
  | 0, _ => none
  | fuel + 1, l =>
    let token := trimL l
    if token.isEmpty then none
    else
      match rustParseU16 token with
      | some port => some port
      | none =>
        match stripEnvInner token with
        | none => none
        | some inner =>
          match envDefault inner with
          | none => none
          | some d =>
            parsePortTokenF fuel (trimMatchesChar '\'' (trimMatchesChar '"' (trimL d)))

/-- Parse a port token: see `parsePortTokenF`. -/
def parsePortToken (l : List Char) : Option Nat :=
  parsePortTokenF (l.length + 1) l

/-- `find_container_port_separator` from `src/infra/derive.rs` (lines
673–701): position of the last `:` outside an env expression and brackets.
Positions are character indices; the Rust code uses byte indices but only
ever slices just after the (single-byte) colon, so the cut point is the
same. -/
def findSepGo : List Char → Nat → Bool → Bool → Option Nat → Option Nat
  | [], _, _, _, lastColon => lastColon
  | ch :: rest, idx, inEnv, inBrackets, lastColon =>
    if ch = '[' ∧ ¬inEnv then findSepGo rest (idx + 1) inEnv true lastColon
    else if ch = ']' ∧ ¬inEnv then findSepGo rest (idx + 1) inEnv false lastColon
    else if ch = '$' ∧ ¬inEnv then
      let inEnv' := match rest with
        | '{' :: _ => true
        | _ => inEnv
      findSepGo rest (idx + 1) inEnv' inBrackets lastColon
    else if ch = '}' ∧ inEnv then findSepGo rest (idx + 1) false inBrackets lastColon
    else if ch = ':' ∧ ¬inEnv ∧ ¬inBrackets then
      findSepGo rest (idx + 1) inEnv inBrackets (some idx)
    else findSepGo rest (idx + 1) inEnv inBrackets lastColon

def findContainerPortSeparator (entry : List Char) : Option Nat :=
  findSepGo entry 0 false false none

/-- `parse_container_port` from `src/infra/derive.rs` (lines 659–671): strip
the protocol suffix, trim, take everything after the last top-level colon,
and parse the remaining token. -/
def parse_container_port (entry : String) : Option Nat :=
  let e := trimL ((entry.toList).takeWhile (fun c => c != '/'))
  if e.isEmpty then none
  else
    let portStr := match findContainerPortSeparator e with
      | some idx => e.drop (idx + 1)
      | none => e
    let portStr := trimL portStr
    if portStr.isEmpty then none
    else parsePortToken portStr

/-! ## YAML data model (`serde_yaml::Value` restricted to compose documents)

Compose documents produced by `compose config` have string mapping keys, and
the derive code ignores non-string keys (`collect_service_names`,
`key.as_str()` guards), so mappings are modelled as association lists with
`String` keys.  Numbers are modelled as `Int` (the derive code only reads
them through `as_u64`); floats and tagged values never reach the rewritten
fields. -/

inductive Yaml where
  | str (s : String)
  | int (n : Int)
  | bool (b : Bool)
  | null
  | seq (items : List Yaml)
  | map (entries : List (String × Yaml))

/-- A `serde_yaml::Mapping` (an insertion-ordered map). -/
abbrev Mapping := List (String × Yaml)

/-- `Value::as_str`. -/
def Yaml.asStr : Yaml → Option String
  | .str s => some s
  | _ => none

/-- `Mapping::get` with a string key. -/
def mget (m : Mapping) (k : String) : Option Yaml :=
  match m with
  | [] => none
  | (k', v) :: rest => if k' = k then some v else mget rest k

def mContains (m : Mapping) (k : String) : Bool :=
  m.any (fun e => e.1 == k)

/-- `Mapping::insert`: replace in place when the key exists, else append
(`IndexMap` semantics; keys of a YAML mapping are unique, so replacing the
first entry carrying the key is the map's insert). -/
def minsert (m : Mapping) (k : String) (v : Yaml) : Mapping :=
  match m with
  | [] => [(k, v)]
  | e :: rest => if e.1 = k then (k, v) :: rest else e :: minsert rest k v

/-- `Mapping::remove` (`IndexMap::swap_remove`): the first entry carrying the
key is removed and its slot is filled with the final entry. -/
def mSwapRemove (m : Mapping) (k : String) : Mapping :=
  match m with
  | [] => []
  | e :: rest =>
    if e.1 = k then
      match rest.getLast? with
      | none => []
      | some last => last :: rest.dropLast
    else e :: mSwapRemove rest k

/-- `get_mut` followed by in-place mutation of the value at a key. -/
def mAdjust (m : Mapping) (k : String) (f : Yaml → Yaml) : Mapping :=
  m.map (fun e => if e.1 == k then (e.1, f e.2) else e)

/-- A `HashMap<String, String>` as used for the app-name maps. -/
def hmInsertStr (m : List (String × String)) (k v : String) : List (String × String) :=
  match m with
  | [] => [(k, v)]
  | e :: rest => if e.1 = k then (k, v) :: rest else e :: hmInsertStr rest k v

def lookupStr (m : List (String × String)) (k : String) : Option String :=
  (m.find? (fun e => e.1 == k)).map (fun e => e.2)

/-- A `HashSet<String>` insert (order chosen as insertion order; the source
only ever tests membership). -/
def hsInsert (s : List String) (x : String) : List String :=
  if s.contains x then s else s ++ [x]

/-! ## Small string helpers shared by the derive code -/

/-- Rust `str::to_ascii_lowercase` (also models `to_lowercase` at the ASCII
label/scheme values the derive code feeds it). -/
def asciiLowercase (s : String) : String := String.mk (s.toList.map Char.toLower)

/-- `str::strip_prefix` for string patterns. -/
def stripPre (p s : String) : Option String :=
  if p.toList.isPrefixOf s.toList then some (s.drop p.length) else none

def listContainsSub : List Char → List Char → Bool
  | [], pat => pat.isEmpty
  | l@(_ :: rest), pat => pat.isPrefixOf l || listContainsSub rest pat

/-- Rust `str::contains` with a string pattern. -/
def containsSub (s pat : String) : Bool := listContainsSub s.toList pat.toList

/-- Rust `str::starts_with` with a string pattern. -/
def strStartsWith (s p : String) : Bool := p.toList.isPrefixOf s.toList

/-- Rust `str::ends_with` with a string pattern. -/
def strEndsWith (s p : String) : Bool := p.toList.isSuffixOf s.toList

/-- Rust `str::contains` with a character pattern. -/
def strContainsChar (s : String) (c : Char) : Bool := s.toList.contains c

/-- Lexicographic order on code points (Rust `String` ordering: byte-wise
lexicographic on UTF-8, which coincides with code-point order). -/
def charListLe : List Char → List Char → Bool
  | [], _ => true
  | _ :: _, [] => false
  | a :: as, b :: bs =>
    if a.val < b.val then true
    else if b.val < a.val then false
    else charListLe as bs

def strLe (a b : String) : Bool := charListLe a.toList b.toList

/-- Rust `str::split(c)` collected into pieces. -/
def splitOnChar (c : Char) : List Char → List (List Char)
  | [] => [[]]
  | x :: rest =>
    let r := splitOnChar c rest
    if x = c then [] :: r
    else
      match r with
      | h :: t => (x :: h) :: t
      | [] => [[x]]

/-- Rust `str::trim` at the `String` level (same trim as `trimL`). -/
def strTrim (s : String) : String := String.mk (trimL s.toList)

/-- String insertion sort with `≤`, modelling `Vec::sort` on unique names
(the derive code sorts service names; keys are unique so stability is
irrelevant). -/
def insertSortedStr (x : String) : List String → List String
  | [] => [x]
  | y :: rest => if strLe x y then x :: y :: rest else y :: insertSortedStr x rest

def sortStrings (l : List String) : List String := l.foldr insertSortedStr []

def insertSortedNat (x : Nat) : List Nat → List Nat
  | [] => [x]
  | y :: rest => if x ≤ y then x :: y :: rest else y :: insertSortedNat x rest

/-- `Vec::sort_unstable` on ports. -/
def sortNat (l : List Nat) : List Nat := l.foldr insertSortedNat []

/-- `Vec::dedup`: drop consecutive duplicates. -/
def dedupAdj : List Nat → List Nat
  | [] => []
  | [x] => [x]
  | x :: y :: rest => if x = y then dedupAdj (y :: rest) else x :: dedupAdj (y :: rest)

/-! ## Unix path model (`std::path`) -/

/-- `Path::is_absolute` on unix. -/
def path_is_absolute (p : String) : Bool := strStartsWith p "/"

/-- `Path::join` followed by `to_string_lossy` on unix paths. -/
def path_join (base p : String) : String :=
  if path_is_absolute p then p
  else if base.isEmpty then p
  else if strEndsWith base "/" then base ++ p
  else base ++ "/" ++ p

/-! ## Path rewriting (`src/infra/derive.rs` lines 884–1145) -/

inductive PathKind where
  | dir
  | file
  | volume
  | unknown

def kindIsVolumeOrUnknown : PathKind → Bool
  | .volume => true
  | .unknown => true
  | _ => false

/-- `is_probably_path` (`src/infra/derive.rs` lines 1121–1131). -/
def is_probably_path (value : String) : Bool :=
  if value = "." ∨ value = ".." then true
  else
    strStartsWith value "./" || strStartsWith value "../" || strStartsWith value "/" ||
      strStartsWith value "~" || strContainsChar value '/' || strContainsChar value '\\'

/-- `is_uri_like` (`src/infra/derive.rs` lines 1142–1145). -/
def is_uri_like (value : String) : Bool :=
  let lower := asciiLowercase value
  containsSub lower "://" || strStartsWith lower "git@"

/-- `expand_tilde` (`src/infra/derive.rs` lines 1112–1119); the `HOME`
environment variable is a parameter. -/
def expand_tilde (home : Option String) (value : String) : String :=
  if strStartsWith value "~/" then
    match home with
    | some h => h ++ "/" ++ value.drop 2
    | none => value
  else value

mutual

/-- `rewrite_path_value` / `rewrite_default_expr` (`src/infra/derive.rs`
lines 1061–1110), mutually recursive through the default of a
`$\x7bVAR:-default\x7d` expression.  A structural fuel argument makes the pair
evaluate inside the kernel; the source recursion only re-enters on the
default expression of such a value, which `stripEnvInner_length`,
`splitOnceTwo_length`, `splitOnceOne_length` and `envDefault_length` show is
strictly shorter than the value, so the wrappers `rewrite_path_value` /
`rewrite_default_expr` fix the fuel at `value.length + 1`, a bound the
source's call depth never reaches. -/
def rewritePathValueF : Nat → String → String → PathKind → Option String → Option String
  | 0, _, _, _, _ => none
  | fuel + 1, value, baseDir, kind, home =>
    if containsSub value "$\x7b" || strContainsChar value '$' then
      match rewriteDefaultExprF fuel value baseDir kind home with
      | some updated => some updated
      | none => none
    else if is_uri_like value then none
    else if path_is_absolute value then none
    else if kindIsVolumeOrUnknown kind && !is_probably_path value then none
    else
      let expanded := expand_tilde home value
      let absolute :=
        if path_is_absolute expanded then expanded else path_join baseDir expanded
      some absolute

/-- See `rewritePathValueF`. -/
def rewriteDefaultExprF : Nat → String → String → PathKind → Option String → Option String
  | 0, _, _, _, _ => none
  | fuel + 1, value, baseDir, kind, home =>
    let trimmed := strTrim value
    match stripEnvInner trimmed.toList with
    | none => none
    | some innerL =>
      let vdo : Option (List Char × List Char × String) :=
        match splitOnceTwo ':' '-' innerL with
        | some pd => some (pd.1, pd.2, ":-")
        | none =>
          match splitOnceOne '-' innerL with
          | some pd => some (pd.1, pd.2, "-")
          | none => none
      match vdo with
      | none => none
      | some (var, dflt, op) =>
        let dfltS := strTrim (String.mk dflt)
        if dfltS.isEmpty then none
        else if kindIsVolumeOrUnknown kind && !is_probably_path dfltS then none
        else
          match rewritePathValueF fuel dfltS baseDir PathKind.unknown home with
          | none => none
          | some dr =>
            let varName := strTrim (String.mk var)
            some ("$\x7b" ++ varName ++ op ++ dr ++ "\x7d")

end

def rewrite_path_value (value baseDir : String) (kind : PathKind) (home : Option String) :
    Option String :=
  rewritePathValueF (value.length + 1) value baseDir kind home

def rewrite_default_expr (value baseDir : String) (kind : PathKind) (home : Option String) :
    Option String :=
  rewriteDefaultExprF (value.length + 1) value baseDir kind home

/-- `split_volume_entry` (`src/infra/derive.rs` lines 1031–1059). -/
def split_volume_entry (value : String) : Option (String × String × Option String) :=
  let parts := (splitOnChar ':' value.toList).map String.mk
  if parts.length < 2 then none
  else
    let first := parts.headD ""
    let driveCase : Bool :=
      decide (parts.length ≥ 3) && decide (first.length = 1) &&
        (match parts.get? 1 with
         | some p => strStartsWith p "\\" || strStartsWith p "/"
         | none => false)
    let source := if driveCase then first ++ ":" ++ (parts.get? 1).getD "" else first
    let index := if driveCase then 2 else 1
    match parts.drop index with
    | [] => none
    | target :: extra =>
      let mode := if extra.length > 0 then some (String.intercalate ":" extra) else none
      some (source, target, mode)

/-- `rewrite_volume_short` (`src/infra/derive.rs` lines 1010–1029). -/
def rewrite_volume_short (value baseDir : String) (home : Option String) : Option String :=
  match split_volume_entry value with
  | none => none
  | some (source, target, mode) =>
    if source.isEmpty then none
    else
      let kind := if is_probably_path source then PathKind.dir else PathKind.volume
      match rewrite_path_value source baseDir kind home with
      | some updated =>
        let rebuilt := updated ++ ":" ++ target
        let rebuilt :=
          match mode with
          | some m => rebuilt ++ ":" ++ m
          | none => rebuilt
        some rebuilt
      | none => none

/-- `rewrite_build` (`src/infra/derive.rs` lines 913–943), covering the
string form, `build.context` and `build.additional_contexts`. -/
def rewrite_build (service : Mapping) (baseDir : String) (home : Option String) : Mapping :=
  match mget service "build" with
  | some (.str context) =>
    (match rewrite_path_value context baseDir PathKind.dir home with
     | some u => mAdjust service "build" (fun _ => .str u)
     | none => service)
  | some (.map m) =>
    let m :=
      match mget m "context" with
      | some (.str context) =>
        (match rewrite_path_value context baseDir PathKind.dir home with
         | some u => mAdjust m "context" (fun _ => .str u)
         | none => m)
      | _ => m
    let m :=
      match mget m "additional_contexts" with
      | some (.map additional) =>
        mAdjust m "additional_contexts" (fun _ => .map (additional.map (fun e =>
          match e.2 with
          | .str ctx =>
            (e.1, match rewrite_path_value ctx baseDir PathKind.dir home with
              | some u => Yaml.str u
              | none => Yaml.str ctx)
          | other => (e.1, other))))
      | _ => m
    mAdjust service "build" (fun _ => .map m)
  | _ => service

/-- `rewrite_env_files` (`src/infra/derive.rs` lines 945–961). -/
def rewrite_env_files (service : Mapping) (baseDir : String) (home : Option String) : Mapping :=
  match mget service "env_file" with
  | some (.str path) =>
    (match rewrite_path_value path baseDir PathKind.file home with
     | some u => mAdjust service "env_file" (fun _ => .str u)
     | none => service)
  | some (.seq entries) =>
    mAdjust service "env_file" (fun _ => .seq (entries.map (fun entry =>
      match entry with
      | .str path =>
        (match rewrite_path_value path baseDir PathKind.file home with
         | some u => Yaml.str u
         | none => Yaml.str path)
      | other => other)))
  | _ => service

/-- `rewrite_extends` (`src/infra/derive.rs` lines 963–971). -/
def rewrite_extends (service : Mapping) (baseDir : String) (home : Option String) : Mapping :=
  match mget service "extends" with
  | some (.map m) =>
    (match mget m "file" with
     | some (.str f) =>
       (match rewrite_path_value f baseDir PathKind.file home with
        | some u => mAdjust service "extends" (fun _ => .map (mAdjust m "file" (fun _ => .str u)))
        | none => service)
     | _ => service)
  | _ => service

/-- `rewrite_volumes` (`src/infra/derive.rs` lines 973–999). -/
def rewrite_volumes (service : Mapping) (baseDir : String) (home : Option String) : Mapping :=
  match mget service "volumes" with
  | some (.seq entries) =>
    mAdjust service "volumes" (fun _ => .seq (entries.map (fun entry =>
      match entry with
      | .str value =>
        (match rewrite_volume_short value baseDir home with
         | some u => Yaml.str u
         | none => Yaml.str value)
      | .map m =>
        let kind :=
          match mget m "type" with
          | some (.str k) =>
            if k = "bind" then PathKind.dir
            else if k = "volume" then PathKind.volume
            else PathKind.unknown
          | _ => PathKind.unknown
        (match mget m "source" with
         | some (.str source) =>
           Yaml.map
             (match rewrite_path_value source baseDir kind home with
              | some u => mAdjust m "source" (fun _ => .str u)
              | none => m)
         | _ => Yaml.map m)
      | other => other)))
  | _ => service

/-- `rewrite_service_paths` (`src/infra/derive.rs` lines 906–911): build,
env files, volumes, extends, in that order. -/
def rewrite_service_paths (service : Mapping) (baseDir : String) (home : Option String) :
    Mapping :=
  rewrite_extends
    (rewrite_volumes
      (rewrite_env_files (rewrite_build service baseDir home) baseDir home) baseDir home)
    baseDir home

/-! ## Labels, environment and ports (`src/infra/derive.rs` lines 428–734) -/

/-- The run-label key constants.  Modelled from the spec: the constants live
in `src/support/constants.rs`, which is declared but absent from the source
tree; §3 of the spec lists the labels (run id, service, compose file path,
derived compose path, started-at, project name) without fixing the key
strings, so the embedding keeps them as parameters. -/
structure LabelNames where
  runId : String
  service : String
  composeFile : String
  derivedCompose : String
  startedAt : String
  projectName : String

/-- `RunLabelContext` (`src/infra/derive.rs` lines 44–50). -/
structure RunLabelContext where
  runId : String
  composeFile : String
  derivedCompose : String
  startedAt : String
  projectName : String

/-- `label_value_string` (`src/infra/derive.rs` lines 520–531); the final
fallback serializes the value with `serde_yaml::to_string` (an external
library), passed in as `serdeToString`. -/
def label_value_string (serdeToString : Yaml → String) : Yaml → String
  | .str v => v
  | .int v => toString v
  | .bool v => if v then "true" else "false"
  | .null => "null"
  | other => strTrim (serdeToString other)

/-- `add_label` (`src/infra/derive.rs` lines 473–518).  The started-at label
is appended in `key=value` form, converting a labels mapping to a sequence;
other labels are inserted into the mapping form or appended to the sequence
form. -/
def add_label (names : LabelNames) (serdeToString : Yaml → String)
    (service : Mapping) (key value : String) : Mapping :=
  if key = names.startedAt then
    let label := Yaml.str (key ++ "=" ++ value)
    match mget service "labels" with
    | some (.seq list) => mAdjust service "labels" (fun _ => .seq (list ++ [label]))
    | some (.map m) =>
      let list := m.map (fun e =>
        Yaml.str (e.1 ++ "=" ++ label_value_string serdeToString e.2))
      minsert service "labels" (.seq (list ++ [label]))
    | _ => minsert service "labels" (.seq [label])
  else
    match mget service "labels" with
    | some (.map m) => mAdjust service "labels" (fun _ => .map (minsert m key (.str value)))
    | some (.seq list) =>
      mAdjust service "labels" (fun _ => .seq (list ++ [.str (key ++ "=" ++ value)]))
    | _ => minsert service "labels" (.map [(key, .str value)])

/-- `add_run_labels` (`src/infra/derive.rs` lines 533–540). -/
def add_run_labels (names : LabelNames) (serdeToString : Yaml → String)
    (ctx : RunLabelContext) (service : Mapping) (serviceName : String) : Mapping :=
  let s := add_label names serdeToString service names.runId ctx.runId
  let s := add_label names serdeToString s names.service serviceName
  let s := add_label names serdeToString s names.composeFile ctx.composeFile
  let s := add_label names serdeToString s names.derivedCompose ctx.derivedCompose
  let s := add_label names serdeToString s names.startedAt ctx.startedAt
  add_label names serdeToString s names.projectName ctx.projectName

/-- `ensure_env_var` (`src/infra/derive.rs` lines 542–568). -/
def ensure_env_var (service : Mapping) (key value : String) : Mapping :=
  match mget service "environment" with
  | some (.map m) =>
    if mContains m key then service
    else mAdjust service "environment" (fun _ => .map (m ++ [(key, .str value)]))
  | some (.seq list) =>
    if list.any (fun entry =>
        match entry.asStr with
        | some item => strStartsWith item (key ++ "=")
        | none => false) then
      service
    else mAdjust service "environment" (fun _ => .seq (list ++ [.str (key ++ "=" ++ value)]))
  | _ => minsert service "environment" (.map [(key, .str value)])

/-- The first-match merge step of `merge_env_var`'s sequence branch. -/
def mergeFirstEnv (pre value : String) : List Yaml → List Yaml
  | [] => [Yaml.str (pre ++ value)]
  | entry :: rest =>
    match entry.asStr with
    | some item =>
      if strStartsWith item pre then Yaml.str (item ++ "," ++ value) :: rest
      else entry :: mergeFirstEnv pre value rest
    | none => entry :: mergeFirstEnv pre value rest

/-- `merge_env_var` (`src/infra/derive.rs` lines 570–612). -/
def merge_env_var (service : Mapping) (key value : String) : Mapping :=
  match mget service "environment" with
  | some (.map m) =>
    (match (mget m key).bind Yaml.asStr with
     | some existing =>
       mAdjust service "environment"
         (fun _ => .map (minsert m key (.str (existing ++ "," ++ value))))
     | none => mAdjust service "environment" (fun _ => .map (minsert m key (.str value))))
  | some (.seq list) =>
    mAdjust service "environment" (fun _ => .seq (mergeFirstEnv (key ++ "=") value list))
  | _ => minsert service "environment" (.map [(key, .str value)])

/-- `get_string` (`src/infra/derive.rs` lines 614–618). -/
def get_string (m : Mapping) (k : String) : Option String :=
  (mget m k).bind Yaml.asStr

/-- `value_to_u16` (`src/infra/derive.rs` lines 648–657). -/
def value_to_u16 : Yaml → Option Nat
  | .int n => if 0 ≤ n ∧ n < 65536 then some n.toNat else none
  | .str v => parsePortToken ((v.toList).takeWhile (fun c => c != '/'))
  | _ => none

/-- `extract_ports` (`src/infra/derive.rs` lines 620–646): container ports
from the `ports` entries plus everything under `expose`, sorted and
deduplicated. -/
def extract_ports (service : Mapping) : List Nat :=
  let fromPorts :=
    match mget service "ports" with
    | some (.seq entries) =>
      entries.filterMap (fun entry =>
        match entry with
        | .str value => parse_container_port value
        | .map m => (mget m "target").bind value_to_u16
        | _ => none)
    | _ => []
  let fromExpose :=
    match mget service "expose" with
    | some (.seq entries) => entries.filterMap value_to_u16
    | _ => []
  dedupAdj (sortNat (fromPorts ++ fromExpose))

inductive ProxyProtocol where
  | http
  | tcp
deriving DecidableEq

/-- `guess_protocol` (`src/infra/derive.rs` lines 725–734): the closed list
of "known HTTP" ports. -/
def HTTP_PORTS : List Nat := [80, 443, 3000, 3001, 3002, 5173, 8000, 8080, 8100, 9000, 10000, 15672]

def guess_protocol (port : Nat) : ProxyProtocol :=
  if HTTP_PORTS.contains port then .http else .tcp

/-- `read_proxy_protocol` (`src/infra/derive.rs` lines 452–471): the
`sanelens.proxy` label in list or mapping form, lowercased. -/
def read_proxy_protocol (service : Mapping) : Option String :=
  match mget service "labels" with
  | some (.seq list) =>
    (list.filterMap Yaml.asStr).findSome? (fun entry =>
      (stripPre "sanelens.proxy=" entry).map asciiLowercase)
  | some (.map m) => ((mget m "sanelens.proxy").bind Yaml.asStr).map asciiLowercase
  | _ => none

/-! ## depends_on rewriting (`src/infra/derive.rs` lines 384–426) -/

/-- `build_proxy_depends_on` (`src/infra/derive.rs` lines 384–391). -/
def build_proxy_depends_on (appName : String) : Yaml :=
  .map [(appName, .map [])]

/-- `is_service_healthy_condition` (`src/infra/derive.rs` lines 419–426). -/
def is_service_healthy_condition : Yaml → Bool
  | .map m =>
    (match (mget m "condition").bind Yaml.asStr with
     | some c => c = "service_healthy"
     | none => false)
  | _ => false

/-- `rewrite_depends_on_for_proxies` (`src/infra/derive.rs` lines 393–417):
collect every string-keyed entry whose key is a proxied service and whose
value carries `condition: service_healthy`, then remove each old key and
insert the app-variant key with the same condition value. -/
def rewrite_depends_on_for_proxies (service : Mapping)
    (proxyAppMap : List (String × String)) : Mapping :=
  match mget service "depends_on" with
  | some (.map dependsMap) =>
    let replacements := dependsMap.filterMap (fun e =>
      match lookupStr proxyAppMap e.1 with
      | some appName =>
        if is_service_healthy_condition e.2 then some (e.1, appName, e.2) else none
      | none => none)
    let dependsMap := replacements.foldl
      (fun dm r => minsert (mSwapRemove dm r.1) r.2.1 r.2.2) dependsMap
    mAdjust service "depends_on" (fun _ => .map dependsMap)
  | _ => service

/-! ## The derivation loop (`src/infra/derive.rs` lines 52–330) -/

/-- The fields of `DeriveConfig` consumed by the services rewrite
(`compose_cmd` / `compose_args` / `compose_file_from_args` feed only the
external `compose config` subprocess). -/
structure DeriveConfig where
  runId : String
  runStartedAt : String
  envoyImage : String
  enableTraffic : Bool
  enableEgress : Bool
  disablePods : Bool

/-- Parameters of the services rewrite: configuration, label-name constants,
the external serializer used by `label_value_string`, the `HOME` variable,
the compose directory, the derived output directory and the run labels. -/
structure DeriveCtx where
  cfg : DeriveConfig
  names : LabelNames
  serdeToString : Yaml → String
  home : Option String
  baseDir : String
  outDir : String
  runLabels : RunLabelContext

/-- `add_envoy_entrypoint` (`src/infra/derive.rs` lines 812–824). -/
def add_envoy_entrypoint (service : Mapping) : Mapping :=
  minsert (minsert service "entrypoint" (.seq [.str "envoy"])) "command"
    (.seq [.str "-c", .str "/etc/envoy/envoy.yaml"])

/-- The egress environment injection repeated verbatim at
`src/infra/derive.rs` lines 157–167, 175–187 and 220–232, factored here. -/
def inject_egress_env (service : Mapping) (noProxyValue : String) : Mapping :=
  let s := ensure_env_var service "HTTP_PROXY" "http://sanelens-egress-proxy:15001"
  let s := ensure_env_var s "HTTPS_PROXY" "http://sanelens-egress-proxy:15001"
  merge_env_var s "NO_PROXY" noProxyValue

/-- `build_expose_value` (`src/infra/derive.rs` lines 428–443). -/
def build_expose_value (ports : List Nat) (original : Option Yaml) : Option Yaml :=
  let items := ports.map (fun p => Yaml.str (toString p))
  let items :=
    match original with
    | some (.seq entries) => items ++ entries
    | _ => items
  if items.isEmpty then none else some (.seq items)

/-- `ensure_expose_ports` (`src/infra/derive.rs` lines 445–450). -/
def ensure_expose_ports (service : Mapping) (ports : List Nat)
    (originalExpose : Option Yaml) : Mapping :=
  match build_expose_value ports originalExpose with
  | some v => minsert service "expose" v
  | none => service

/-- `build_egress_service` (`src/infra/derive.rs` lines 773–810). -/
def build_egress_service (names : LabelNames) (serdeToString : Yaml → String)
    (envoyImage : String) (networks : List String) (configPath : String)
    (overrideEntrypoint : Bool) (tapDir : Option String) : Yaml :=
  let m : Mapping := [("image", .str envoyImage)]
  let m := if overrideEntrypoint then add_envoy_entrypoint m else m
  let volumes := [Yaml.str (configPath ++ ":/etc/envoy/envoy.yaml:ro")]
  let volumes :=
    match tapDir with
    | some t => volumes ++ [Yaml.str (t ++ ":/sanelens/tap")]
    | none => volumes
  let m := minsert m "volumes" (.seq volumes)
  let m := if networks.isEmpty then m else minsert m "networks" (.seq (networks.map Yaml.str))
  let m := add_label names serdeToString m "sanelens.proxy" "true"
  let m := add_label names serdeToString m "sanelens.proxy.egress" "true"
  Yaml.map m

/-- `collect_network_names` (`src/infra/derive.rs` lines 826–836). -/
def collect_network_names (doc : Mapping) : List String :=
  match mget doc "networks" with
  | some (.map m) => m.map (fun e => e.1)
  | _ => []

/-- `collect_service_names` (`src/infra/derive.rs` lines 838–848): the
(string) keys of the services mapping, sorted. -/
def collect_service_names (doc : Mapping) : Except String (List String) :=
  match mget doc "services" with
  | some (.map services) => .ok (sortStrings (services.map (fun e => e.1)))
  | _ => .error "compose file missing services"

/-- The per-service port/protocol decision (`src/infra/derive.rs` lines
193–205); an unknown override value warns and falls back to the
heuristic. -/
def port_modes_for (protocolOverride : Option String) (ports : List Nat) :
    List (Nat × ProxyProtocol) :=
  ports.map (fun port =>
    match protocolOverride with
    | some o =>
      if o = "http" then (port, ProxyProtocol.http)
      else if o = "tcp" then (port, ProxyProtocol.tcp)
      else (port, guess_protocol port)
    | none => (port, guess_protocol port))

/-- Accumulator of the service loop (`new_services`, `proxy_services`,
`app_service_map`, `proxy_app_map` of `derive_compose`). -/
structure DeriveAcc where
  newServices : Mapping
  proxyServices : List String
  appServiceMap : List (String × String)
  proxyAppMap : List (String × String)

/-- One iteration of the service loop of `derive_compose`
(`src/infra/derive.rs` lines 137–281). -/
def derive_service_step (ctx : DeriveCtx) (services : Mapping) (noProxyValue : String)
    (acc : DeriveAcc) (name : String) : DeriveAcc :=
  let serviceValue := (mget services name).getD Yaml.null
  match serviceValue with
  | .map service0 =>
    let service := rewrite_service_paths service0 ctx.baseDir ctx.home
    let networkMode := get_string service "network_mode"
    if networkMode = some "host" ∨ networkMode = some "none" then
      let s := add_run_labels ctx.names ctx.serdeToString ctx.runLabels service name
      { acc with newServices := minsert acc.newServices name (.map s) }
    else
      let ports := extract_ports service
      if ports.isEmpty then
        let s := if ctx.cfg.enableEgress then inject_egress_env service noProxyValue else service
        let s := add_run_labels ctx.names ctx.serdeToString ctx.runLabels s name
        { acc with newServices := minsert acc.newServices name (.map s) }
      else
        let protocolOverride := read_proxy_protocol service
        if protocolOverride = some "off" then
          let s :=
            if ctx.cfg.enableEgress then inject_egress_env service noProxyValue else service
          let s := add_run_labels ctx.names ctx.serdeToString ctx.runLabels s name
          { acc with newServices := minsert acc.newServices name (.map s) }
        else
          let appName := name ++ "-app"
          let appServiceMap := hmInsertStr acc.appServiceMap appName name
          let proxyAppMap := hmInsertStr acc.proxyAppMap name appName
          let originalPorts := mget service "ports"
          let service := mSwapRemove service "ports"
          let originalExpose := mget service "expose"
          let service := mSwapRemove service "expose"
          let originalContainerName := mget service "container_name"
          let service := mSwapRemove service "container_name"
          let appService := service
          let appService := ensure_expose_ports appService ports originalExpose
          let appService := add_label ctx.names ctx.serdeToString appService "sanelens.app" "true"
          let appService :=
            add_label ctx.names ctx.serdeToString appService "sanelens.app.name" name
          let appService :=
            add_run_labels ctx.names ctx.serdeToString ctx.runLabels appService name
          let appService :=
            if ctx.cfg.enableEgress then inject_egress_env appService noProxyValue
            else appService
          let proxy : Mapping := [("image", .str ctx.cfg.envoyImage)]
          let proxy := if ctx.cfg.disablePods then add_envoy_entrypoint proxy else proxy
          let proxy :=
            match mget service "restart" with
            | some r => minsert proxy "restart" r
            | none => proxy
          let proxy :=
            match mget service "networks" with
            | some n => minsert proxy "networks" n
            | none => proxy
          let proxy := minsert proxy "depends_on" (build_proxy_depends_on appName)
          let proxy :=
            match originalPorts with
            | some pv => minsert proxy "ports" pv
            | none => proxy
          let proxy :=
            match originalContainerName with
            | some cn => minsert proxy "container_name" cn
            | none => proxy
          let proxy :=
            match build_expose_value ports originalExpose with
            | some e => minsert proxy "expose" e
            | none => proxy
          let envoyConfigPath := path_join (path_join ctx.outDir "envoy") (name ++ ".yaml")
          let tapServicePath := path_join (path_join ctx.outDir "tap") name
          let proxy := minsert proxy "volumes" (.seq
            [.str (envoyConfigPath ++ ":/etc/envoy/envoy.yaml:ro"),
             .str (tapServicePath ++ ":/sanelens/tap")])
          let proxy := add_label ctx.names ctx.serdeToString proxy "sanelens.proxy" "true"
          let proxy := add_label ctx.names ctx.serdeToString proxy "sanelens.proxy.name" name
          let proxy := add_run_labels ctx.names ctx.serdeToString ctx.runLabels proxy name
          { newServices := minsert (minsert acc.newServices name (.map proxy)) appName
              (.map appService)
            proxyServices := hsInsert acc.proxyServices name
            appServiceMap := appServiceMap
            proxyAppMap := proxyAppMap }
  | other => { acc with newServices := minsert acc.newServices name other }

/-- The result fields of `derive_compose` describing the services rewrite
(the on-disk paths are elided). -/
structure DerivedServices where
  services : Mapping
  proxyServices : List String
  appServiceMap : List (String × String)
  egressProxy : Option String

/-- The egress block of `derive_compose` (`src/infra/derive.rs` lines
283–303). -/
def derive_egress_block (ctx : DeriveCtx) (networkNames : List String)
    (acc : DeriveAcc) : DeriveAcc :=
  if ctx.cfg.enableEgress then
    let egressName := "sanelens-egress-proxy"
    let tapServiceDir := path_join (path_join ctx.outDir "tap") egressName
    let egressConfig := build_egress_service ctx.names ctx.serdeToString ctx.cfg.envoyImage
      networkNames (path_join (path_join ctx.outDir "envoy") "egress.yaml")
      ctx.cfg.disablePods (some tapServiceDir)
    let egressConfig :=
      match egressConfig with
      | .map m =>
        Yaml.map (add_run_labels ctx.names ctx.serdeToString ctx.runLabels m egressName)
      | other => other
    { acc with
      newServices := minsert acc.newServices egressName egressConfig
      proxyServices := hsInsert acc.proxyServices egressName }
  else acc

/-- The services transformation of `derive_compose` (`src/infra/derive.rs`
lines 52–330): path rewriting and label stamping when traffic is disabled;
otherwise the proxy/app split per sorted service name, the optional egress
proxy, and the `depends_on` rewrite pass over every derived service.
Filesystem writes, the `compose config` subprocess and the top-level `name`
stamping are elided; the claims below concern the services mapping. -/
def derive_compose_services (ctx : DeriveCtx) (doc : Mapping) :
    Except String DerivedServices :=
  let networkNames := if ctx.cfg.enableTraffic then collect_network_names doc else []
  match
    (if ctx.cfg.enableTraffic then collect_service_names doc else .ok []) with
  | .error e => .error e
  | .ok serviceNames =>
    match mget doc "services" with
    | some (.map services) =>
      if !ctx.cfg.enableTraffic then
        let services := services.map (fun e =>
          match e.2 with
          | .map service =>
            (e.1, Yaml.map (add_run_labels ctx.names ctx.serdeToString ctx.runLabels
              (rewrite_service_paths service ctx.baseDir ctx.home) e.1))
          | other => (e.1, other))
        .ok { services := services, proxyServices := [], appServiceMap := [],
              egressProxy := none }
      else
        let noProxyHosts := serviceNames ++ ["localhost", "127.0.0.1"]
        let noProxyValue := String.intercalate "," noProxyHosts
        let init : DeriveAcc :=
          { newServices := [], proxyServices := [], appServiceMap := [], proxyAppMap := [] }
        let acc := serviceNames.foldl (derive_service_step ctx services noProxyValue) init
        let acc := derive_egress_block ctx networkNames acc
        let newServices := acc.newServices.map (fun e =>
          match e.2 with
          | .map service =>
            (e.1, Yaml.map (rewrite_depends_on_for_proxies service acc.proxyAppMap))
          | _ => e)
        .ok { services := newServices
              proxyServices := acc.proxyServices
              appServiceMap := acc.appServiceMap
              egressProxy :=
                if ctx.cfg.enableEgress then some "sanelens-egress-proxy" else none }
    | _ => .error "compose file missing services"

/-! ## Traffic domain model (`src/domain/traffic.rs`) -/

/-- `std::net::IpAddr`, kept abstract as its textual representation; the std
parsers that produce values of this type are parameters (`StdNet`). -/
structure IpAddr where
  repr : String
deriving DecidableEq

structure Socket where
  ip : IpAddr
  port : Nat
deriving DecidableEq

inductive Transport where
  | tcp
  | udp
  | other (code : Nat)
deriving DecidableEq

structure FlowKey where
  src : Socket
  dst : Socket
  transport : Transport
deriving DecidableEq

inductive EntityId where
  | workload (name : String) (instanceName : Option String)
  | external (ip : IpAddr) (dnsName : Option String)
  | host (name : String)
  | unknown
deriving DecidableEq

inductive Visibility where
  | l4Flow
  | l7Envelope
  | l7Semantics
deriving DecidableEq

/-- `Visibility::merge` (`src/domain/traffic.rs` lines 79–86). -/
def Visibility.merge : Visibility → Visibility → Visibility
  | .l7Semantics, _ => .l7Semantics
  | _, .l7Semantics => .l7Semantics
  | .l7Envelope, _ => .l7Envelope
  | _, .l7Envelope => .l7Envelope
  | _, _ => .l4Flow

inductive Confidence where
  | exact
  | likely
  | uncertain
deriving DecidableEq

structure Correlation where
  requestId : Option String := none
  traceId : Option String := none
  spanId : Option String := none
deriving DecidableEq

/-- Header maps and tags (`BTreeMap<String, String>`) as association lists;
the observation pipeline only inserts distinct keys and never iterates, so
key order is immaterial. -/
abbrev StrMap := List (String × String)

structure ObservationAttrs where
  visibility : Visibility
  confidence : Confidence
  tags : StrMap
deriving DecidableEq

structure FlowMetrics where
  bytesIn : Option Nat
  bytesOut : Option Nat
  packets : Option Nat
  durationMs : Option Nat
deriving DecidableEq

structure Peer where
  src : Option EntityId
  dst : Option EntityId
  raw : Option FlowKey
deriving DecidableEq

structure HttpObservation where
  atMs : Nat
  peer : Peer
  method : Option String
  path : Option String
  status : Option Nat
  durationMs : Option Nat
  bytesIn : Option Nat
  bytesOut : Option Nat
  requestHeaders : StrMap
  responseHeaders : StrMap
  requestBody : Option String
  responseBody : Option String
  correlation : Correlation
  attrs : ObservationAttrs
deriving DecidableEq

structure FlowObservation where
  atMs : Nat
  flow : FlowKey
  metrics : FlowMetrics
  peer : Peer
  attrs : ObservationAttrs
deriving DecidableEq

inductive Observation where
  | flow (f : FlowObservation)
  | http (h : HttpObservation)
deriving DecidableEq

structure TrafficCall where
  seq : Nat
  atMs : Nat
  peer : Peer
  method : Option String
  path : Option String
  status : Option Nat
  durationMs : Option Nat
  bytesIn : Option Nat
  bytesOut : Option Nat
  requestHeaders : StrMap
  responseHeaders : StrMap
  requestBody : Option String
  responseBody : Option String
  correlation : Correlation
  attrs : ObservationAttrs
deriving DecidableEq

inductive EdgeKey where
  | flow (from_ to_ : EntityId) (transport : Transport) (port : Nat)
  | http (from_ to_ : EntityId) (method route : String)
  | grpc (from_ to_ : EntityId) (service method : String)
deriving DecidableEq

structure EdgeStats where
  count : Nat
  bytesIn : Nat
  bytesOut : Nat
  errors : Nat
  p50Ms : Option Nat
  p95Ms : Option Nat
  visibility : Visibility
deriving DecidableEq

structure TrafficEdge where
  key : EdgeKey
  stats : EdgeStats
  lastSeenMs : Nat
deriving DecidableEq

/-! ## Access-record promotion (`src/infra/traffic.rs`) -/

/-- `EnvoyAccessLog` (`src/infra/traffic.rs` lines 11–36), the already
JSON-parsed access record (serde_json is external; the worker model takes
the parse result as input). -/
structure EnvoyAccessLog where
  timestamp : Option String := none
  method : Option String := none
  path : Option String := none
  authority : Option String := none
  protocol : Option String := none
  responseCode : Option Nat := none
  durationMs : Option Nat := none
  downstreamRemoteAddress : Option String := none
  upstreamHost : Option String := none
  bytesReceived : Option Nat := none
  bytesSent : Option Nat := none
  requestId : Option String := none
  requestUserAgent : Option String := none
  requestContentType : Option String := none
  requestAccept : Option String := none
  requestForwardedFor : Option String := none
  requestForwardedProto : Option String := none
  requestBody : Option String := none
  responseContentType : Option String := none
  responseContentLength : Option String := none
  responseBody : Option String := none

/-- The std parsers `str::parse::<SocketAddr>` and `str::parse::<IpAddr>`
(external library behaviour, abstracted). -/
structure StdNet where
  parseSocketAddr : String → Option Socket
  parseIp : String → Option IpAddr

/-- Rust `str::rsplit_once(c)`: split at the last occurrence. -/
def rsplitOnceChar (c : Char) (s : String) : Option (String × String) :=
  let l := s.toList
  match l.reverse.findIdx? (fun x => x == c) with
  | none => none
  | some ri =>
    let i := l.length - 1 - ri
    some (String.mk (l.take i), String.mk (l.drop (i + 1)))

/-- `parse_socket` (`src/infra/traffic.rs` lines 519–535). -/
def parse_socket (std : StdNet) (raw : String) : Option Socket :=
  match std.parseSocketAddr raw with
  | some sock => some sock
  | none =>
    let raw := strTrim raw
    if raw.isEmpty then none
    else
      match rsplitOnceChar ':' raw with
      | none => none
      | some (host, port) =>
        let host := String.mk (dropAround (fun ch => ch == '[' || ch == ']') host.toList)
        match std.parseIp host with
        | none => none
        | some ip =>
          match rustParseU16 port.toList with
          | none => none
          | some p => some { ip := ip, port := p }

/-- `IpAddr::from([0, 0, 0, 0])`. -/
def ipv4Zero : IpAddr := { repr := "0.0.0.0" }

/-- `parse_external_entity` (`src/infra/traffic.rs` lines 720–735). -/
def parse_external_entity (std : StdNet) (raw : Option String) : Option EntityId :=
  match raw with
  | none => none
  | some raw =>
    let value := strTrim raw
    if value.isEmpty then none
    else
      let hp := (rsplitOnceChar ':' value).getD (value, "")
      let host := String.mk (dropAround (fun ch => ch == '[' || ch == ']') hp.1.toList)
      match std.parseIp host with
      | some ip => some (.external ip none)
      | none => some (.external ipv4Zero (some host))

/-- `EnvoySockets` (`src/infra/traffic.rs` lines 44–47). -/
structure EnvoySockets where
  downstream : Option Socket
  upstream : Option Socket

/-- `parse_envoy_sockets` (`src/infra/traffic.rs` lines 243–253). -/
def parse_envoy_sockets (std : StdNet) (log : EnvoyAccessLog) : EnvoySockets :=
  { downstream := log.downstreamRemoteAddress.bind (parse_socket std)
    upstream := log.upstreamHost.bind (parse_socket std) }

/-- `resolve_dst_entity` (`src/infra/traffic.rs` lines 419–440). -/
def resolve_dst_entity (std : StdNet) (log : EnvoyAccessLog) (isEgress : Bool)
    (serviceName : String) (upstream : Option Socket) : Option EntityId :=
  if isEgress then
    match parse_external_entity std (log.authority.or log.upstreamHost) with
    | some e => some e
    | none => upstream.map (fun s => EntityId.external s.ip none)
  else some (.workload serviceName none)

/-- `resolve_confidence` (`src/infra/traffic.rs` lines 442–451). -/
def resolve_confidence (srcEntity dstEntity : Option EntityId) : Confidence :=
  if srcEntity.isSome && dstEntity.isSome then .exact else .likely

/-- `build_peer` (`src/infra/traffic.rs` lines 453–468). -/
def build_peer (src dst : Option EntityId) (downstream upstream : Option Socket) : Peer :=
  let raw :=
    match downstream, upstream with
    | some s, some d => some { src := s, dst := d, transport := Transport.tcp }
    | _, _ => none
  { src := src, dst := dst, raw := raw }

/-- `build_attrs` (`src/infra/traffic.rs` lines 470–481): L7 semantics when
the record carries a method, path or authority, else an L4 flow. -/
def build_attrs (log : EnvoyAccessLog) (confidence : Confidence) : ObservationAttrs :=
  let visibility :=
    if log.method.isSome || log.path.isSome || log.authority.isSome then
      Visibility.l7Semantics
    else Visibility.l4Flow
  { visibility := visibility, confidence := confidence, tags := [] }

/-- `build_http_path_parts` (`src/infra/traffic.rs` lines 483–500). -/
def build_http_path_parts (path : Option String) (authority upstreamHost : Option String)
    (isEgress : Bool) : Option String :=
  if !isEgress then path
  else
    match authority.or upstreamHost with
    | some a =>
      (match path with
       | some p => some (a ++ p)
       | none => some a)
    | none => path

/-- `normalize_header_value` (`src/infra/traffic.rs` lines 806–815). -/
def normalize_header_value (value : Option String) : Option String :=
  value.bind (fun v =>
    let t := strTrim v
    if t.isEmpty || t = "-" then none else some t)

/-- `BTreeMap::insert` on string maps (keys in the promotion pipeline are
distinct literals, so replace-or-append is observationally the map). -/
def bInsert (m : StrMap) (k v : String) : StrMap :=
  if m.any (fun e => e.1 == k) then m.map (fun e => if e.1 == k then (k, v) else e)
  else m ++ [(k, v)]

/-- `insert_header` (`src/infra/traffic.rs` lines 747–752). -/
def insert_header (m : StrMap) (k : String) (value : Option String) : StrMap :=
  match normalize_header_value value with
  | none => m
  | some v => bInsert m k v

/-- `RequestHeaderParts` (`src/infra/traffic.rs` lines 63–71). -/
structure RequestHeaderParts where
  authority : Option String
  requestId : Option String
  requestUserAgent : Option String
  requestContentType : Option String
  requestAccept : Option String
  requestForwardedFor : Option String
  requestForwardedProto : Option String

/-- `build_request_headers` (`src/infra/traffic.rs` lines 367–381). -/
def build_request_headers (parts : RequestHeaderParts) : StrMap :=
  let headers : StrMap := []
  let headers := insert_header headers "host" parts.authority
  let headers := insert_header headers "x-request-id" parts.requestId
  let headers := insert_header headers "user-agent" parts.requestUserAgent
  let headers := insert_header headers "content-type" parts.requestContentType
  let headers := insert_header headers "accept" parts.requestAccept
  let headers := insert_header headers "x-forwarded-for" parts.requestForwardedFor
  insert_header headers "x-forwarded-proto" parts.requestForwardedProto

/-- `build_response_headers_from_parts` (`src/infra/traffic.rs` lines
383–391). -/
def build_response_headers_from_parts (responseContentType responseContentLength :
    Option String) : StrMap :=
  let headers : StrMap := []
  let headers := insert_header headers "content-type" responseContentType
  insert_header headers "content-length" responseContentLength

/-! ## Body normalization (`src/infra/traffic.rs` lines 754–804) -/

/-- UTF-8 byte length of a character list (Rust `str::len`). -/
def byteLen (l : List Char) : Nat := (l.map Char.utf8Size).sum

/-- The scan of `truncate_body`: keep every character whose starting byte
offset is below the budget. -/
def truncGo : List Char → Nat → Nat → List Char
  | [], _, _ => []
  | c :: rest, idx, maxB =>
    if idx ≥ maxB then [] else c :: truncGo rest (idx + c.utf8Size) maxB

/-- `truncate_body` (`src/infra/traffic.rs` lines 792–804). -/
def truncate_body (body : List Char) (maxBytes : Nat) : List Char × Bool :=
  if byteLen body ≤ maxBytes then (body, false)
  else (truncGo body 0 maxBytes, true)

/-- `is_json_content_type` (`src/infra/traffic.rs` lines 788–790). -/
def is_json_content_type (contentType : Option String) : Bool :=
  match contentType with
  | some v => containsSub (asciiLowercase v) "json"
  | none => false

def NON_JSON_BODY_PREVIEW_LIMIT : Nat := 4096

/-- The content-type extraction inside `normalize_body`
(`src/infra/traffic.rs` lines 762–776): trim, drop parameters after `;`,
trim again. -/
def extract_content_type (contentType : Option String) : Option String :=
  contentType.bind (fun v =>
    let t := strTrim v
    if t.isEmpty then none
    else some (strTrim (String.mk ((t.toList).takeWhile (fun c => c != ';')))))

/-- `normalize_body` (`src/infra/traffic.rs` lines 756–786). -/
def normalize_body (body : Option String) (contentType : Option String) : Option String :=
  match body with
  | none => none
  | some body =>
    let trimmed := strTrim body
    if trimmed.isEmpty || trimmed = "-" then none
    else
      let ct := extract_content_type contentType
      if is_json_content_type ct then some body
      else
        let tb := truncate_body body.toList NON_JSON_BODY_PREVIEW_LIMIT
        if tb.2 then some (String.mk tb.1 ++ "\n... (cropped)")
        else some (String.mk tb.1)

/-! ## Observation construction (`src/infra/traffic.rs` lines 121–147,
255–365, 393–417) -/

/-- `HttpLogParts` (`src/infra/traffic.rs` lines 49–61). -/
structure HttpLogParts where
  method : Option String
  path : Option String
  status : Option Nat
  durationMs : Option Nat
  bytesIn : Option Nat
  bytesOut : Option Nat
  requestId : Option String
  requestHeaders : StrMap
  responseHeaders : StrMap
  requestBody : Option String
  responseBody : Option String

/-- `build_http_parts` (`src/infra/traffic.rs` lines 310–365). -/
def build_http_parts (log : EnvoyAccessLog) (isEgress : Bool) : HttpLogParts :=
  let path := build_http_path_parts log.path log.authority log.upstreamHost isEgress
  let requestHeaders := build_request_headers
    { authority := log.authority
      requestId := log.requestId
      requestUserAgent := log.requestUserAgent
      requestContentType := log.requestContentType
      requestAccept := log.requestAccept
      requestForwardedFor := log.requestForwardedFor
      requestForwardedProto := log.requestForwardedProto }
  let responseHeaders :=
    build_response_headers_from_parts log.responseContentType log.responseContentLength
  let requestBody := normalize_body log.requestBody log.requestContentType
  let responseBody := normalize_body log.responseBody log.responseContentType
  { method := log.method
    path := path
    status := log.responseCode
    durationMs := log.durationMs
    bytesIn := log.bytesReceived
    bytesOut := log.bytesSent
    requestId := log.requestId
    requestHeaders := requestHeaders
    responseHeaders := responseHeaders
    requestBody := requestBody
    responseBody := responseBody }

/-- `build_http_observation` (`src/infra/traffic.rs` lines 281–308). -/
def build_http_observation (log : EnvoyAccessLog) (peer : Peer)
    (attrs : ObservationAttrs) (nowMs : Nat) (isEgress : Bool) : Observation :=
  let parts := build_http_parts log isEgress
  .http
    { atMs := nowMs
      peer := peer
      method := parts.method
      path := parts.path
      status := parts.status
      durationMs := parts.durationMs
      bytesIn := parts.bytesIn
      bytesOut := parts.bytesOut
      requestHeaders := parts.requestHeaders
      responseHeaders := parts.responseHeaders
      requestBody := parts.requestBody
      responseBody := parts.responseBody
      correlation := { requestId := parts.requestId }
      attrs := attrs }

/-- `build_flow_key` (`src/infra/traffic.rs` lines 502–517). -/
def build_flow_key (peerRaw : Option FlowKey) (downstream upstream : Option Socket) :
    Option FlowKey :=
  match peerRaw with
  | some flow => some flow
  | none =>
    match downstream, upstream with
    | some src, some dst => some { src := src, dst := dst, transport := Transport.tcp }
    | _, _ => none

/-- `build_flow_observation` (`src/infra/traffic.rs` lines 393–417). -/
def build_flow_observation (log : EnvoyAccessLog) (peer : Peer)
    (attrs : ObservationAttrs) (nowMs : Nat) (sockets : EnvoySockets) :
    Option Observation :=
  match build_flow_key peer.raw sockets.downstream sockets.upstream with
  | none => none
  | some flow =>
    some (.flow
      { atMs := nowMs
        flow := flow
        metrics :=
          { bytesIn := log.bytesReceived
            bytesOut := log.bytesSent
            packets := none
            durationMs := log.durationMs }
        peer := peer
        attrs := attrs })

/-- `resolve_peer_and_attrs` (`src/infra/traffic.rs` lines 255–279); the
snapshot resolver (`dyn Resolver`) is the function parameter `resolver`. -/
def resolve_peer_and_attrs (std : StdNet) (resolver : Socket → Option EntityId)
    (log : EnvoyAccessLog) (serviceName : String) (isEgress : Bool)
    (sockets : EnvoySockets) : Peer × ObservationAttrs :=
  let srcEntity := sockets.downstream.bind resolver
  let dstEntity := resolve_dst_entity std log isEgress serviceName sockets.upstream
  let confidence := resolve_confidence srcEntity dstEntity
  let peer := build_peer srcEntity dstEntity sockets.downstream sockets.upstream
  let attrs := build_attrs log confidence
  (peer, attrs)

/-- `observation_from_envoy` (`src/infra/traffic.rs` lines 121–147). -/
def observation_from_envoy (std : StdNet) (log : EnvoyAccessLog) (serviceName : String)
    (resolver : Socket → Option EntityId) (isEgress : Bool) (nowMs : Nat) :
    Option Observation :=
  let sockets := parse_envoy_sockets std log
  let pa := resolve_peer_and_attrs std resolver log serviceName isEgress sockets
  if pa.2.visibility = Visibility.l7Semantics then
    some (build_http_observation log pa.1 pa.2 nowMs isEgress)
  else
    build_flow_observation log pa.1 pa.2 nowMs sockets

/-- One iteration of the read loop of `traffic_log_worker`
(`src/app/runner.rs` lines 1052–1076) for a non-empty line, after the
external JSON parse (`parse_envoy_log_line`): a parse failure is skipped; a
record with method/path/authority is dropped when tapping is enabled;
otherwise the record is promoted and emitted. -/
def traffic_worker_step (std : StdNet) (parsed : Option EnvoyAccessLog)
    (tapEnabled : Bool) (serviceName : String) (resolver : Socket → Option EntityId)
    (isEgress : Bool) (nowMs : Nat) : Option Observation :=
  match parsed with
  | none => none
  | some log =>
    if tapEnabled && (log.method.isSome || log.path.isSome || log.authority.isSome) then
      none
    else
      observation_from_envoy std log serviceName resolver isEgress nowMs

/-! ## Hubs (`src/support/traffic.rs`, `src/support/logging.rs`) -/

/-- A bounded crossbeam channel sender held by a hub, with the client id the
hub retains alongside it.  `connected` is false once the receiver was
dropped. -/
structure Client (α : Type) where
  id : Nat
  cap : Nat
  connected : Bool
  queue : List α

/-- `Sender::try_send`: `Ok` appends, `Full` drops the event, `Disconnected`
(second component `true`) marks the client for removal. -/
def trySendClient {α : Type} (c : Client α) (x : α) : Client α × Bool :=
  if !c.connected then (c, true)
  else if c.queue.length ≥ c.cap then (c, false)
  else ({ c with queue := c.queue ++ [x] }, false)

/-- The fan-out step shared by `LogHub::publish`, `TrafficHub::publish` and
`TrafficHub::publish_call`: try-send to every client, then retain the
clients that were not disconnected. -/
def publishToClients {α : Type} (clients : List (Client α)) (x : α) : List (Client α) :=
  let sent := clients.map (fun c => trySendClient c x)
  let disconnected := (sent.filter (fun p => p.2)).map (fun p => p.1.id)
  if disconnected.isEmpty then sent.map (fun p => p.1)
  else (sent.map (fun p => p.1)).filter (fun c => !(disconnected.contains c.id))

/-- Evict from the front while over the limit (the `while len > limit \x7b
pop_front() \x7d` loops in both hubs). -/
def dropToLimit {α : Type} (l : List α) (limit : Nat) : List α :=
  if l.length > limit then l.drop (l.length - limit) else l

def LATENCY_SAMPLE_LIMIT : Nat := 256

/-- `EdgeState` (`src/support/traffic.rs` lines 14–18); the `VecDeque` of
latencies has its oldest sample at the head. -/
structure EdgeState where
  stats : EdgeStats
  latencies : List Nat
  lastSeenMs : Nat

/-- `TrafficHubState` (`src/support/traffic.rs` lines 20–28); the edge
`HashMap` is an association list with decidable-equality keys. -/
structure TrafficHubState where
  edges : List (EdgeKey × EdgeState)
  clients : List (Client TrafficEdge)
  nextClientId : Nat
  calls : List TrafficCall
  callClients : List (Client TrafficCall)
  nextCallClientId : Nat
  nextCallSeq : Nat

/-- Fresh hub state (`TrafficHub::new`). -/
def TrafficHubState.new : TrafficHubState :=
  { edges := [], clients := [], nextClientId := 1, calls := [], callClients := []
    nextCallClientId := 1, nextCallSeq := 1 }

def eget (m : List (EdgeKey × EdgeState)) (k : EdgeKey) : Option EdgeState :=
  match m with
  | [] => none
  | (k', v) :: rest => if k' = k then some v else eget rest k

/-- `HashMap` store: replace the value at the key or append a new entry. -/
def eStore (m : List (EdgeKey × EdgeState)) (k : EdgeKey) (v : EdgeState) :
    List (EdgeKey × EdgeState) :=
  match m with
  | [] => [(k, v)]
  | (k', v') :: rest => if k' = k then (k, v) :: rest else (k', v') :: eStore rest k v

/-- `percentile` (`src/support/traffic.rs` lines 276–282). -/
def percentile (sorted : List Nat) (pct : Nat) : Nat :=
  if sorted.isEmpty then 0
  else ((sorted.get? ((sorted.length - 1) * pct / 100)).getD 0)

/-- `update_latency_stats` (`src/support/traffic.rs` lines 264–274). -/
def update_latency_stats (stats : EdgeStats) (samples : List Nat) : EdgeStats :=
  if samples.isEmpty then { stats with p50Ms := none, p95Ms := none }
  else
    let sorted := sortNat samples
    { stats with p50Ms := some (percentile sorted 50)
                 p95Ms := some (percentile sorted 95) }

/-- Rust `str::to_uppercase` at the ASCII method names the hub sees. -/
def rustUppercase (s : String) : String := String.mk (s.toList.map Char.toUpper)

/-- The edge-key construction of `TrafficHub::emit_http`
(`src/support/traffic.rs` lines 119–128): unknown entities for unresolved
peers, `UNKNOWN` for a missing method, uppercased methods, `/` for a missing
path. -/
def emit_http_key (http : HttpObservation) : EdgeKey :=
  .http (http.peer.src.getD .unknown) (http.peer.dst.getD .unknown)
    (rustUppercase (http.method.getD "UNKNOWN")) (http.path.getD "/")

/-- The `entry(..).or_insert_with(..)` baseline of `TrafficHub::emit_http`
(`src/support/traffic.rs` lines 130–142): the stored edge state, or a fresh
zeroed one. -/
def emit_http_baseline (s : TrafficHubState) (http : HttpObservation) : EdgeState :=
  match eget s.edges (emit_http_key http) with
  | some st => st
  | none =>
    { stats :=
        { count := 0, bytesIn := 0, bytesOut := 0, errors := 0
          p50Ms := none, p95Ms := none, visibility := http.attrs.visibility }
      latencies := []
      lastSeenMs := http.atMs }

/-- The in-lock edge update of `TrafficHub::emit_http`
(`src/support/traffic.rs` lines 129–164), returning the state and the edge
snapshot passed on to `publish`. -/
def emit_http_update (s : TrafficHubState) (http : HttpObservation) :
    TrafficHubState × TrafficEdge :=
  let key := emit_http_key http
  let st0 := emit_http_baseline s http
  let stats := st0.stats
  let stats :=
    { stats with
      count := stats.count + 1
      bytesIn := stats.bytesIn + http.bytesIn.getD 0
      bytesOut := stats.bytesOut + http.bytesOut.getD 0 }
  let stats :=
    match http.status with
    | some status => if status ≥ 400 then { stats with errors := stats.errors + 1 } else stats
    | none => stats
  let stats := { stats with visibility := Visibility.merge stats.visibility http.attrs.visibility }
  let latStats : List Nat × EdgeStats :=
    match http.durationMs with
    | some duration =>
      let lat := dropToLimit (st0.latencies ++ [duration]) LATENCY_SAMPLE_LIMIT
      (lat, update_latency_stats stats lat)
    | none => (st0.latencies, stats)
  let st1 : EdgeState :=
    { stats := latStats.2, latencies := latStats.1, lastSeenMs := http.atMs }
  ({ s with edges := eStore s.edges key st1 },
   { key := key, stats := latStats.2, lastSeenMs := http.atMs })

/-- `TrafficHub::publish` (`src/support/traffic.rs` lines 79–110): refresh
the stored edge stats from the snapshot, then fan out. -/
def hub_publish_edge (s : TrafficHubState) (edge : TrafficEdge) : TrafficHubState :=
  let edges :=
    match eget s.edges edge.key with
    | some existing =>
      eStore s.edges edge.key
        { existing with stats := edge.stats, lastSeenMs := edge.lastSeenMs }
    | none =>
      s.edges ++ [(edge.key,
        { stats := edge.stats, latencies := [], lastSeenMs := edge.lastSeenMs })]
  { s with edges := edges, clients := publishToClients s.clients edge }

/-- `TrafficHub::publish_call` (`src/support/traffic.rs` lines 208–252).
`callHistoryLimit` models `TRAFFIC_CALL_HISTORY_LIMIT` from
`src/support/constants.rs`, which is absent from the source tree; the spec
fixes only that the call history bound is "a similar fixed limit". -/
def hub_publish_call (s : TrafficHubState) (http : HttpObservation)
    (callHistoryLimit : Nat) : TrafficHubState × TrafficCall :=
  let seq := s.nextCallSeq
  let call : TrafficCall :=
    { seq := seq, atMs := http.atMs, peer := http.peer, method := http.method
      path := http.path, status := http.status, durationMs := http.durationMs
      bytesIn := http.bytesIn, bytesOut := http.bytesOut
      requestHeaders := http.requestHeaders, responseHeaders := http.responseHeaders
      requestBody := http.requestBody, responseBody := http.responseBody
      correlation := http.correlation, attrs := http.attrs }
  let calls := dropToLimit (s.calls ++ [call]) callHistoryLimit
  ({ s with nextCallSeq := seq + 1, calls := calls
            callClients := publishToClients s.callClients call }, call)

/-- `TrafficHub::emit_http` (`src/support/traffic.rs` lines 118–168): the
in-lock edge update, the edge fan-out, then the call fan-out. -/
def emit_http (s : TrafficHubState) (http : HttpObservation) (callHistoryLimit : Nat) :
    TrafficHubState :=
  let up := emit_http_update s http
  let s2 := hub_publish_edge up.1 up.2
  (hub_publish_call s2 http callHistoryLimit).1

/-- `LogEvent` (`src/domain/mod.rs` lines 12–16). -/
structure LogEvent where
  seq : Nat
  service : String
  line : String
deriving DecidableEq

/-- `LogHubState` plus the atomic sequence counter of `LogHub`
(`src/support/logging.rs` lines 10–20). -/
structure LogHubState where
  history : List LogEvent
  clients : List (Client LogEvent)
  nextClientId : Nat
  seq : Nat
  historySize : Nat

/-- `LogHub::new` (`src/support/logging.rs` lines 23–33). -/
def LogHubState.new (historySize : Nat) : LogHubState :=
  { history := [], clients := [], nextClientId := 1, seq := 0, historySize := historySize }

/-- The event constructed by `LogHub::publish` (`src/support/logging.rs`
lines 36–45): the next sequence number, the service name with `unknown`
substituted for an empty name, and the line. -/
def log_publish_event (s : LogHubState) (service line : String) : LogEvent :=
  { seq := s.seq + 1
    service := if service.isEmpty then "unknown" else service
    line := line }

/-- `LogHub::publish` (`src/support/logging.rs` lines 35–68). -/
def log_publish (s : LogHubState) (service line : String) : LogHubState :=
  let event := log_publish_event s service line
  let history := dropToLimit (s.history ++ [event]) s.historySize
  { s with seq := s.seq + 1, history := history
           clients := publishToClients s.clients event }

/-! ## Runner (`src/app/runner.rs`, `src/app/mod.rs`) -/

/-- The outcome of `derive_compose` abstracted for the retry logic: the
filesystem- and subprocess-heavy call is a function from the two flags the
retry changes (`enable_traffic`, `enable_egress`) to a result. -/
structure DeriveFlags where
  enableTraffic : Bool
  enableEgress : Bool
deriving DecidableEq

/-- The observable outcome of `ComposeRunner::prepare_derived_compose`
(`src/app/runner.rs` lines 189–226): the final result, the runner's traffic
flag after the call, the configurations actually passed to `derive_compose`
in order, and the number of warnings printed. -/
structure PrepareOutcome (α : Type) where
  result : Except String α
  trafficEnabled : Bool
  deriveCalls : List DeriveFlags
  warnings : Nat

/-- `ComposeRunner::prepare_derived_compose` (`src/app/runner.rs` lines
189–226).  `trafficEnabled` is the runner's flag, `egressEnv` models
`is_env_truthy("SANELENS_EGRESS_PROXY")`, and `derive` the call to
`derive_compose` with the two varying flags. -/
def prepare_derived_compose {α : Type} (trafficEnabled egressEnv : Bool)
    (derive : DeriveFlags → Except String α) : PrepareOutcome α :=
  let flags : DeriveFlags :=
    { enableTraffic := trafficEnabled, enableEgress := trafficEnabled && egressEnv }
  match derive flags with
  | .ok d =>
    { result := .ok d, trafficEnabled := trafficEnabled, deriveCalls := [flags]
      warnings := 0 }
  | .error e =>
    if !trafficEnabled then
      { result := .error e, trafficEnabled := trafficEnabled, deriveCalls := [flags]
        warnings := 0 }
    else
      let flags2 : DeriveFlags := { enableTraffic := false, enableEgress := false }
      match derive flags2 with
      | .ok d =>
        { result := .ok d, trafficEnabled := false, deriveCalls := [flags, flags2]
          warnings := 1 }
      | .error e2 =>
        { result := .error e2, trafficEnabled := false, deriveCalls := [flags, flags2]
          warnings := 1 }

/-- The cross-thread control cells touched by `SignalContext::handle_signal`
(`src/app/runner.rs` lines 1126–1158): the stop flag, the one-shot guard,
the exit-code cell, and the two process-registry terminations folded to
flags. -/
structure SignalState where
  stopEvent : Bool
  signalHandled : Bool
  exitCode : Int
  logProcsStopped : Bool
  composeProcStopped : Bool
deriving DecidableEq

/-- The state at `ComposeRunner::new` (`src/app/runner.rs` lines 149–153):
flags clear, exit code 0. -/
def SignalState.init : SignalState :=
  { stopEvent := false, signalHandled := false, exitCode := 0
    logProcsStopped := false, composeProcStopped := false }

/-- `SignalContext::handle_signal` (`src/app/runner.rs` lines 1149–1157):
`swap(true)` returns early on every call after the first; the first call
stores 130, sets the stop flag and terminates both process groups. -/
def handle_signal (s : SignalState) : SignalState :=
  if s.signalHandled then s
  else
    { s with signalHandled := true, exitCode := 130, stopEvent := true
             logProcsStopped := true, composeProcStopped := true }

/-- `ComposeRunner::cleanup_once`'s writes to the shared cells
(`src/app/runner.rs` lines 261–268): sets the stop flag and stops the
process groups, never touching the exit-code cell. -/
def cleanup_once_cells (s : SignalState) : SignalState :=
  { s with stopEvent := true, logProcsStopped := true, composeProcStopped := true }

/-- The states of the shared cells reachable in a run: the initial state
followed by any interleaving of signal deliveries and cleanup. -/
inductive SignalReachable : SignalState → Prop where
  | init : SignalReachable SignalState.init
  | signal {s : SignalState} : SignalReachable s → SignalReachable (handle_signal s)
  | cleanup {s : SignalState} : SignalReachable s → SignalReachable (cleanup_once_cells s)

/-- `run_with_cleanup` (`src/app/mod.rs` lines 610–618): the engine exit
code is replaced by the signal cell when that is non-zero. -/
def run_with_cleanup (runResult : Int) (s : SignalState) : Int :=
  if s.exitCode ≠ 0 then s.exitCode else runResult

/-- A concrete derivation context used to evaluate `derive_compose_services`
on closed inputs (traffic on, egress off, pods enabled). -/
def sampleDeriveCtx : DeriveCtx :=
  { cfg :=
      { runId := "run-1"
        runStartedAt := "2024-01-01T00:00:00Z"
        envoyImage := "envoyproxy/envoy:v1.30.2"
        enableTraffic := true
        enableEgress := false
        disablePods := false }
    names :=
      { runId := "sanelens.run.id"
        service := "sanelens.service"
        composeFile := "sanelens.compose-file"
        derivedCompose := "sanelens.derived-compose"
        startedAt := "sanelens.run.started-at"
        projectName := "sanelens.project" }
    serdeToString := fun _ => ""
    home := none
    baseDir := "/base"
    outDir := "/out"
    runLabels :=
      { runId := "run-1"
        composeFile := "/base/compose.yaml"
        derivedCompose := "/out/compose.yaml"
        startedAt := "2024-01-01T00:00:00Z"
        projectName := "proj" } }

/-! ## Helper lemmas -/

theorem length_dropWhile_le' (p : Char → Bool) (l : List Char) :
    (l.dropWhile p).length ≤ l.length := by
  induction l with
  | nil => simp
  | cons x tl ih =>
    by_cases h : p x
    · simp only [List.dropWhile, h, List.length_cons]
      omega
    · simp [List.dropWhile, h]

theorem dropAround_length_le (p : Char → Bool) (l : List Char) :
    (dropAround p l).length ≤ l.length := by
  unfold dropAround
  have h1 : (l.dropWhile p).length ≤ l.length := length_dropWhile_le' p l
  have h2 : ((l.dropWhile p).reverse.dropWhile p).length ≤ (l.dropWhile p).reverse.length :=
    length_dropWhile_le' p (l.dropWhile p).reverse
  simp only [List.length_reverse] at *
  omega

theorem trimL_length_le (l : List Char) : (trimL l).length ≤ l.length :=
  dropAround_length_le _ l

theorem trimMatchesChar_length_le (c : Char) (l : List Char) :
    (trimMatchesChar c l).length ≤ l.length :=
  dropAround_length_le _ l

theorem stripSuffixChar_length (c : Char) (l r : List Char)
    (h : stripSuffixChar c l = some r) : r.length + 1 = l.length := by
  unfold stripSuffixChar at h
  by_cases hx : l.getLast? = some c
  · rw [if_pos hx] at h
    have hr : l.dropLast = r := Option.some.inj h
    have hne : l ≠ [] := by
      intro he; rw [he] at hx; simp at hx
    rw [← hr, List.length_dropLast]
    have : 0 < l.length := List.length_pos.mpr hne
    omega
  · rw [if_neg hx] at h
    exact absurd h (by simp)

theorem stripEnvInner_length (l r : List Char)
    (h : stripEnvInner l = some r) : r.length + 3 = l.length := by
  unfold stripEnvInner at h
  match l with
  | '$' :: '{' :: rest =>
    have := stripSuffixChar_length _ _ _ h
    simp only [List.length_cons]
    omega
  | [] => exact absurd h (by simp)
  | [c] =>
    by_cases h1 : c = '$' <;> simp [h1] at h
  | c :: d :: rest =>
    by_cases h1 : c = '$'
    · by_cases h2 : d = '{'
      · subst h1; subst h2; have := stripSuffixChar_length _ _ _ h
        simp only [List.length_cons]; omega
      · subst h1
        exact absurd h (by cases d <;> simp_all [stripEnvInner])
    · exact absurd h (by cases c <;> simp_all [stripEnvInner])

/-- Model of Rust `str::split_once` with a two-character pattern. -/
theorem splitOnceTwo_length (a b : Char) (l pre post : List Char)
    (h : splitOnceTwo a b l = some (pre, post)) : post.length ≤ l.length := by
  induction l generalizing pre with
  | nil => exact absurd h (by simp [splitOnceTwo])
  | cons x tl ih =>
    match tl with
    | [] => exact absurd h (by simp [splitOnceTwo])
    | y :: rest =>
      unfold splitOnceTwo at h
      by_cases hc : x = a ∧ y = b
      · simp only [if_pos hc, Option.some.injEq, Prod.mk.injEq] at h
        obtain ⟨-, h2⟩ := h
        subst h2
        simp only [List.length_cons]
        omega
      · simp only [if_neg hc] at h
        cases hs : splitOnceTwo a b (y :: rest) with
        | none => rw [hs] at h; exact absurd h (by simp)
        | some pr =>
          rw [hs] at h
          obtain ⟨pre', post'⟩ := pr
          simp only [Option.some.injEq, Prod.mk.injEq] at h
          obtain ⟨-, h2⟩ := h
          subst h2
          have := ih pre' hs
          simp only [List.length_cons] at *
          omega

/-- Model of Rust `str::split_once` with a single-character pattern. -/
theorem splitOnceOne_length (a : Char) (l pre post : List Char)
    (h : splitOnceOne a l = some (pre, post)) : post.length ≤ l.length := by
  induction l generalizing pre with
  | nil => exact absurd h (by simp [splitOnceOne])
  | cons x tl ih =>
    unfold splitOnceOne at h
    by_cases hc : x = a
    · simp only [if_pos hc, Option.some.injEq, Prod.mk.injEq] at h
      obtain ⟨-, h2⟩ := h
      subst h2
      simp
    · simp only [if_neg hc] at h
      cases hs : splitOnceOne a tl with
      | none => rw [hs] at h; exact absurd h (by simp)
      | some pr =>
        rw [hs] at h
        obtain ⟨pre', post'⟩ := pr
        simp only [Option.some.injEq, Prod.mk.injEq] at h
        obtain ⟨-, h2⟩ := h
        subst h2
        have := ih pre' hs
        simp only [List.length_cons]
        omega

/-- Model of Rust `str::parse::<u16>()`: optional leading `+`, at least one
decimal digit, value at most `65535`. -/
theorem envDefault_length (inner d : List Char)
    (h : envDefault inner = some d) : d.length ≤ inner.length := by
  unfold envDefault at h
  cases h2 : splitOnceTwo ':' '-' inner with
  | some pd =>
    rw [h2] at h
    simp only [Option.some.injEq] at h
    subst h
    exact splitOnceTwo_length _ _ _ pd.1 pd.2 (by rw [h2])
  | none =>
    rw [h2] at h
    cases h1 : splitOnceOne '-' inner with
    | some pd =>
      rw [h1] at h
      simp only [Option.some.injEq] at h
      subst h
      exact splitOnceOne_length _ _ pd.1 pd.2 (by rw [h1])
    | none => rw [h1] at h; exact absurd h (by simp)

/-- `parse_port_token` from `src/infra/derive.rs` (lines 703–723), with a
structural fuel argument so the definition evaluates inside the kernel.  The
fuel never runs out when it exceeds the token length
(`parsePortTokenF_fuel_irrelevant`), and `parsePortToken_eq` recovers the
fuel-free recursion of the Rust source. -/
theorem parsePortTokenF_congr (fuel1 : Nat) :
    ∀ fuel2 l, l.length < fuel1 → l.length < fuel2 →
      parsePortTokenF fuel1 l = parsePortTokenF fuel2 l := by
  induction fuel1 with
  | zero => intro fuel2 l h _; omega
  | succ f1 ih =>
    intro fuel2 l h1l h2l
    cases fuel2 with
    | zero => omega
    | succ f2 =>
      show parsePortTokenF (f1 + 1) l = parsePortTokenF (f2 + 1) l
      unfold parsePortTokenF
      simp only
      by_cases he : (trimL l).isEmpty
      · simp [he]
      · simp only [he, Bool.false_eq_true, if_false]
        cases hu : rustParseU16 (trimL l) with
        | some port => simp only [hu]
        | none =>
          simp only [hu]
          cases hs : stripEnvInner (trimL l) with
          | none => simp only [hs]
          | some inner =>
            simp only [hs]
            cases hd : envDefault inner with
            | none => simp only [hd]
            | some d =>
              simp only [hd]
              have ht : (trimL l).length ≤ l.length := trimL_length_le l
              have hi : inner.length + 3 = (trimL l).length := stripEnvInner_length _ _ hs
              have hdl : d.length ≤ inner.length := envDefault_length _ _ hd
              have h3 : (trimL d).length ≤ d.length := trimL_length_le d
              have h4 : (trimMatchesChar '"' (trimL d)).length ≤ (trimL d).length :=
                trimMatchesChar_length_le _ _
              have h5 : (trimMatchesChar '\'' (trimMatchesChar '"' (trimL d))).length ≤
                  (trimMatchesChar '"' (trimL d)).length := trimMatchesChar_length_le _ _
              exact ih f2 _ (by omega) (by omega)

theorem parsePortTokenF_fuel_irrelevant (fuel : Nat) (l : List Char)
    (h : l.length < fuel) : parsePortTokenF fuel l = parsePortToken l :=
  parsePortTokenF_congr fuel (l.length + 1) l h (by omega)

/-- The fuel-free recursion equation of `parse_port_token` as written in the
Rust source: the fuel in `parsePortToken` is an implementation device only. -/
theorem parsePortToken_eq (l : List Char) :
    parsePortToken l =
      (if (trimL l).isEmpty then none
       else
         match rustParseU16 (trimL l) with
         | some port => some port
         | none =>
           match stripEnvInner (trimL l) with
           | none => none
           | some inner =>
             match envDefault inner with
             | none => none
             | some d =>
               parsePortToken (trimMatchesChar '\'' (trimMatchesChar '"' (trimL d)))) := by
  show parsePortTokenF (l.length + 1) l = _
  unfold parsePortTokenF
  simp only
  by_cases he : (trimL l).isEmpty
  · simp [he]
  · simp only [he, Bool.false_eq_true, if_false]
    cases hu : rustParseU16 (trimL l) with
    | some port => simp only [hu]
    | none =>
      simp only [hu]
      cases hs : stripEnvInner (trimL l) with
      | none => simp only [hs]
      | some inner =>
        simp only [hs]
        cases hd : envDefault inner with
        | none => simp only [hd]
        | some d =>
          simp only [hd]
          have ht : (trimL l).length ≤ l.length := trimL_length_le l
          have hi : inner.length + 3 = (trimL l).length := stripEnvInner_length _ _ hs
          have hdl : d.length ≤ inner.length := envDefault_length _ _ hd
          have h3 : (trimL d).length ≤ d.length := trimL_length_le d
          have h4 : (trimMatchesChar '"' (trimL d)).length ≤ (trimL d).length :=
            trimMatchesChar_length_le _ _
          have h5 : (trimMatchesChar '\'' (trimMatchesChar '"' (trimL d))).length ≤
              (trimMatchesChar '"' (trimL d)).length := trimMatchesChar_length_le _ _
          exact parsePortTokenF_fuel_irrelevant _ _ (by omega)

/-! ## Signal handling (claim C8) -/

theorem signal_reachable_exit {s : SignalState} (h : SignalReachable s) :
    s.exitCode = 0 ∨ s.exitCode = 130 := by
  induction h with
  | init => left; rfl
  | signal _ ih =>
    unfold handle_signal
    split
    · exact ih
    · right; rfl
  | cleanup _ ih =>
    unfold cleanup_once_cells
    exact ih

/-- Claim C8: signal handling is one-shot — the first invocation of the
signal handler stores 130 into the exit-code cell, sets the stop flag and
terminates the child processes; every later invocation leaves the state
unchanged; and whenever the signal exit-code cell of a reachable state is
non-zero, the supervisor's final exit code is 130. -/
theorem C8_signal_handling_one_shot :
    (∀ s : SignalState, s.signalHandled = false →
      handle_signal s =
        { stopEvent := true, signalHandled := true, exitCode := 130
          logProcsStopped := true, composeProcStopped := true }) ∧
    (∀ s : SignalState, s.signalHandled = true → handle_signal s = s) ∧
    (∀ (s : SignalState) (runResult : Int), SignalReachable s → s.exitCode ≠ 0 →
      run_with_cleanup runResult s = 130) := by
  refine ⟨?_, ?_, ?_⟩
  · intro s h
    unfold handle_signal
    rw [h]
    rfl
  · intro s h
    unfold handle_signal
    rw [h]
    rfl
  · intro s runResult hr hnz
    have h130 : s.exitCode = 130 := (signal_reachable_exit hr).resolve_left hnz
    unfold run_with_cleanup
    rw [if_pos hnz, h130]

theorem C8_signal_handling_one_shot_witness :
    run_with_cleanup 7 (handle_signal SignalState.init) = 130 ∧
    handle_signal (handle_signal SignalState.init) = handle_signal SignalState.init := by
  constructor
  · exact C8_signal_handling_one_shot.2.2 (handle_signal SignalState.init) 7
      (SignalReachable.signal SignalReachable.init) (by decide)
  · exact C8_signal_handling_one_shot.2.1 (handle_signal SignalState.init) (by decide)

/-! ## Derivation retry (claim C6) -/

/-- Claim C6: if derivation fails while traffic is enabled, the supervisor
warns and retries exactly once with traffic disabled and egress forced off,
and the second attempt's result (including any error, which is fatal) is
returned; if traffic was not enabled the first error is returned immediately
with no retry and no warning. -/
theorem C6_derive_retry_once (α : Type) (egressEnv : Bool)
    (derive : DeriveFlags → Except String α) :
    (∀ e : String,
      derive { enableTraffic := true, enableEgress := egressEnv } = .error e →
      prepare_derived_compose true egressEnv derive =
        { result := derive { enableTraffic := false, enableEgress := false }
          trafficEnabled := false
          deriveCalls := [{ enableTraffic := true, enableEgress := egressEnv },
                          { enableTraffic := false, enableEgress := false }]
          warnings := 1 }) ∧
    (∀ e : String,
      derive { enableTraffic := false, enableEgress := false } = .error e →
      prepare_derived_compose false egressEnv derive =
        { result := .error e
          trafficEnabled := false
          deriveCalls := [{ enableTraffic := false, enableEgress := false }]
          warnings := 0 }) := by
  constructor
  · intro e h
    unfold prepare_derived_compose
    simp only [Bool.true_and, h]
    cases h2 : derive { enableTraffic := false, enableEgress := false } with
    | ok d => simp [h2]
    | error e2 => simp [h2]
  · intro e h
    unfold prepare_derived_compose
    simp only [Bool.false_and, h]
    rfl

theorem C6_derive_retry_once_witness :
    prepare_derived_compose true false
        (fun f => if f.enableTraffic then Except.error "derive failed" else Except.ok 0) =
      { result := .ok 0
        trafficEnabled := false
        deriveCalls := [{ enableTraffic := true, enableEgress := false },
                        { enableTraffic := false, enableEgress := false }]
        warnings := 1 } := by
  have h := (C6_derive_retry_once Nat false
    (fun f => if f.enableTraffic then Except.error "derive failed" else Except.ok 0)).1
    "derive failed" (by rfl)
  simpa using h

/-! ## Log hub (claim C9) -/

theorem dropToLimit_getLast' {α : Type} (l : List α) (x : α) (n : Nat) (hn : 1 ≤ n) :
    (dropToLimit (l ++ [x]) n).getLast? = some x := by
  unfold dropToLimit
  split
  · have hk : (l ++ [x]).length - n ≤ l.length := by
      simp only [List.length_append, List.length_singleton]
      omega
    rw [List.drop_append_of_le_length hk]
    exact List.getLast?_concat _
  · exact List.getLast?_concat _

theorem trySendClient_fst {α : Type} (c : Client α) (x : α) :
    (trySendClient c x).1 = c ∨ (trySendClient c x).1 = { c with queue := c.queue ++ [x] } := by
  unfold trySendClient
  split
  · left; rfl
  · split
    · left; rfl
    · right; rfl

theorem publishToClients_mem {α : Type} (cls : List (Client α)) (x : α) (c' : Client α)
    (h : c' ∈ publishToClients cls x) :
    ∃ c ∈ cls, c' = (trySendClient c x).1 := by
  simp only [publishToClients] at h
  split at h
  · obtain ⟨p, hp, hpe⟩ := List.mem_map.mp h
    obtain ⟨c, hc, hce⟩ := List.mem_map.mp hp
    exact ⟨c, hc, by rw [← hpe, ← hce]⟩
  · have h2 := List.mem_filter.mp h
    obtain ⟨p, hp, hpe⟩ := List.mem_map.mp h2.1
    obtain ⟨c, hc, hce⟩ := List.mem_map.mp hp
    exact ⟨c, hc, by rw [← hpe, ← hce]⟩

/-- Claim C9: every event published through the log hub carries the service
name `unknown` when the given service name is empty and the given name
unchanged otherwise — both in the history entry appended and in every queue
extension delivered to a client. -/
theorem C9_log_publish_unknown_service (s : LogHubState) (service line : String)
    (hsize : 1 ≤ s.historySize) :
    ((log_publish s service line).history.getLast? =
      some { seq := s.seq + 1
             service := if service.isEmpty then "unknown" else service
             line := line }) ∧
    (∀ c' ∈ (log_publish s service line).clients, ∃ c ∈ s.clients,
      c'.queue = c.queue ∨
        c'.queue = c.queue ++
          [{ seq := s.seq + 1
             service := if service.isEmpty then "unknown" else service
             line := line }]) := by
  constructor
  · unfold log_publish log_publish_event
    exact dropToLimit_getLast' _ _ _ hsize
  · intro c' hc'
    unfold log_publish at hc'
    obtain ⟨c, hc, hce⟩ := publishToClients_mem _ _ _ hc'
    refine ⟨c, hc, ?_⟩
    rcases trySendClient_fst c (log_publish_event s service line) with h | h
    · left; rw [hce, h]
    · right
      rw [hce, h]
      simp [log_publish_event]

theorem C9_log_publish_unknown_service_witness :
    (log_publish (LogHubState.new 2) "" "boom").history.getLast? =
      some { seq := 1, service := "unknown", line := "boom" } := by
  have h := (C9_log_publish_unknown_service (LogHubState.new 2) "" "boom" (by decide)).1
  simpa using h

/-! ## Body normalization (claim C5) -/

theorem byteLen_nil : byteLen [] = 0 := rfl

theorem byteLen_cons (c : Char) (l : List Char) :
    byteLen (c :: l) = c.utf8Size + byteLen l := by
  simp [byteLen]

theorem truncGo_isPrefix (l : List Char) : ∀ idx maxB, truncGo l idx maxB <+: l := by
  induction l with
  | nil => intro idx maxB; simp [truncGo]
  | cons c rest ih =>
    intro idx maxB
    unfold truncGo
    split
    · exact List.nil_prefix
    · obtain ⟨t, ht⟩ := ih (idx + c.utf8Size) maxB
      exact ⟨t, by rw [List.cons_append, ht]⟩

theorem truncGo_byteLen_le (l : List Char) : ∀ idx maxB, idx ≤ maxB →
    idx + byteLen (truncGo l idx maxB) ≤ maxB + 3 := by
  induction l with
  | nil => intro idx maxB h; rw [truncGo, byteLen_nil]; omega
  | cons c rest ih =>
    intro idx maxB h
    unfold truncGo
    split
    · rw [byteLen_nil]; omega
    · rename_i hlt
      rw [byteLen_cons]
      have hsz : c.utf8Size ≤ 4 := Char.utf8Size_le_four c
      by_cases h2 : idx + c.utf8Size ≤ maxB
      · have := ih (idx + c.utf8Size) maxB h2
        omega
      · have hempty : truncGo rest (idx + c.utf8Size) maxB = [] := by
          cases rest with
          | nil => rfl
          | cons d tl =>
            unfold truncGo
            rw [if_pos (by omega : idx + c.utf8Size ≥ maxB)]
        rw [hempty, byteLen_nil]
        omega

theorem truncGo_byteLen_ge (l : List Char) : ∀ idx maxB, maxB ≤ idx + byteLen l →
    maxB ≤ idx + byteLen (truncGo l idx maxB) := by
  induction l with
  | nil => intro idx maxB h; simpa [truncGo] using h
  | cons c rest ih =>
    intro idx maxB h
    unfold truncGo
    split
    · rename_i hge
      rw [byteLen_nil]
      omega
    · rw [byteLen_cons] at h ⊢
      have := ih (idx + c.utf8Size) maxB (by omega)
      omega

/-- Claim C5 is false as stated: with a JSON content type the body `"-"` is
not returned verbatim — `normalize_body` drops bodies that trim to empty or
`-` before the content-type check. -/
theorem C5_counterexample :
    is_json_content_type (extract_content_type (some "application/json")) = true ∧
    normalize_body (some "-") (some "application/json") = none := by
  constructor
  · decide
  · decide

/-- Claim C5 (amended): for bodies that do not trim to empty or `-`, body
normalization returns the body verbatim whenever the extracted content type
names a JSON type; otherwise bodies within the fixed 4096-byte budget are
returned unchanged, and longer bodies are cut to a character-list prefix of
4096–4099 bytes (a UTF-8 boundary at approximately 4096 bytes) with the
`(cropped)` marker appended.  Bodies trimming to empty or `-` yield no body
(`C5_counterexample`). -/
theorem C5_normalize_body_bounds (body : String) (contentType : Option String)
    (hbody : ((strTrim body).isEmpty || strTrim body = "-") = false) :
    (is_json_content_type (extract_content_type contentType) = true →
      normalize_body (some body) contentType = some body) ∧
    (is_json_content_type (extract_content_type contentType) = false →
      byteLen body.toList ≤ NON_JSON_BODY_PREVIEW_LIMIT →
      normalize_body (some body) contentType = some body) ∧
    (is_json_content_type (extract_content_type contentType) = false →
      NON_JSON_BODY_PREVIEW_LIMIT < byteLen body.toList →
      ∃ pre : List Char, pre <+: body.toList ∧
        NON_JSON_BODY_PREVIEW_LIMIT ≤ byteLen pre ∧
        byteLen pre ≤ NON_JSON_BODY_PREVIEW_LIMIT + 3 ∧
        normalize_body (some body) contentType =
          some (String.mk pre ++ "\n... (cropped)")) := by
  refine ⟨?_, ?_, ?_⟩
  · intro hjson
    unfold normalize_body
    simp only [hbody, Bool.false_eq_true, if_false, hjson, if_true]
  · intro hjson hsmall
    unfold normalize_body truncate_body
    simp only [hbody, Bool.false_eq_true, if_false, hjson, if_pos hsmall]
    rfl
  · intro hjson hbig
    refine ⟨truncGo body.toList 0 NON_JSON_BODY_PREVIEW_LIMIT,
      truncGo_isPrefix _ _ _, ?_, ?_, ?_⟩
    · have := truncGo_byteLen_ge body.toList 0 NON_JSON_BODY_PREVIEW_LIMIT (by omega)
      omega
    · have := truncGo_byteLen_le body.toList 0 NON_JSON_BODY_PREVIEW_LIMIT (by
        unfold NON_JSON_BODY_PREVIEW_LIMIT; omega)
      omega
    · unfold normalize_body truncate_body
      simp only [hbody, Bool.false_eq_true, if_false, hjson,
        if_neg (by omega : ¬ byteLen body.toList ≤ NON_JSON_BODY_PREVIEW_LIMIT)]
      rfl

theorem C5_normalize_body_bounds_witness :
    ((strTrim "hello").isEmpty || strTrim "hello" = "-") = false ∧
    normalize_body (some "hello") (some "text/plain") = some "hello" := by
  refine ⟨by decide, ?_⟩
  exact (C5_normalize_body_bounds "hello" (some "text/plain") (by decide)).2.1
    (by decide) (by decide)

/-! ## Traffic log worker (claim C2) -/

/-- Std parsers that accept nothing (the counterexample does not depend on
socket parsing). -/
def stdNone : StdNet := { parseSocketAddr := fun _ => none, parseIp := fun _ => none }

def observationVisibility : Observation → Visibility
  | .http h => h.attrs.visibility
  | .flow f => f.attrs.visibility

/-- Claim C2 is false as stated: a record with a method, promoted with no tap
directory, carries visibility `l7-semantics`, not `l7-envelope` —
`build_attrs` assigns `L7Semantics` whenever method, path or authority is
present. -/
theorem C2_counterexample :
    (traffic_worker_step stdNone (some { method := some "GET" }) false "api"
        (fun _ => none) false 0).map observationVisibility =
      some Visibility.l7Semantics ∧
    Visibility.l7Semantics ≠ Visibility.l7Envelope := by
  constructor
  · rfl
  · decide

/-- Claim C2 (amended): for every access record with a method, path or
authority field, the traffic worker drops the record when a tap directory
exists for the service, and otherwise promotes it into an HTTP observation
whose visibility attribute is `l7-semantics`. -/
theorem C2_worker_drop_or_promote (std : StdNet) (log : EnvoyAccessLog)
    (serviceName : String) (resolver : Socket → Option EntityId) (isEgress : Bool)
    (nowMs : Nat)
    (hl7 : (log.method.isSome || log.path.isSome || log.authority.isSome) = true) :
    traffic_worker_step std (some log) true serviceName resolver isEgress nowMs = none ∧
    ∃ h : HttpObservation,
      traffic_worker_step std (some log) false serviceName resolver isEgress nowMs =
        some (.http h) ∧ h.attrs.visibility = Visibility.l7Semantics := by
  have hvis : ∀ conf, (build_attrs log conf).visibility = Visibility.l7Semantics := by
    intro conf
    unfold build_attrs
    simp [hl7]
  constructor
  · unfold traffic_worker_step
    simp [hl7]
  · unfold traffic_worker_step observation_from_envoy resolve_peer_and_attrs
    simp only [Bool.false_and, Bool.false_eq_true, if_false, hvis, if_pos rfl]
    exact ⟨_, rfl, hvis _⟩

theorem C2_worker_drop_or_promote_witness :
    traffic_worker_step stdNone (some { method := some "GET" }) true "api"
      (fun _ => none) false 0 = none := by
  exact (C2_worker_drop_or_promote stdNone { method := some "GET" } "api"
    (fun _ => none) false 0 (by decide)).1

/-! ## Port parsing test vectors (claim C7) -/

/-- Claim C7: container-port parsing maps each of the nine documented
values to its expected container port — plain forms, host mappings,
environment-default expressions and IPv6 bracket forms. -/
theorem C7_parse_container_port_vectors :
    parse_container_port "8080" = some 8080 ∧
    parse_container_port "8080/tcp" = some 8080 ∧
    parse_container_port "127.0.0.1:3000:80" = some 80 ∧
    parse_container_port "0.0.0.0:3000:8080/udp" = some 8080 ∧
    parse_container_port "$\x7bHOST_PORT:-8080\x7d:$\x7bPORT:-3000\x7d" = some 3000 ∧
    parse_container_port "$\x7bPORT:-3000\x7d" = some 3000 ∧
    parse_container_port "$\x7bPORT-3000\x7d" = some 3000 ∧
    parse_container_port "[::1]:3000:80" = some 80 ∧
    parse_container_port "[::1]:$\x7bHOST_PORT:-3000\x7d:$\x7bPORT:-80\x7d" = some 80 := by
  decide

/-! ## Traffic edge hub (claims C3 and C10) -/

theorem eget_eStore_self (m : List (EdgeKey × EdgeState)) (k : EdgeKey) (v : EdgeState) :
    eget (eStore m k v) k = some v := by
  induction m with
  | nil => simp [eStore, eget]
  | cons e rest ih =>
    obtain ⟨k0, v0⟩ := e
    by_cases h0 : k0 = k
    · simp [eStore, if_pos h0, eget]
    · simp only [eStore, if_neg h0, eget, if_neg h0]
      exact ih

theorem eget_eStore_ne (m : List (EdgeKey × EdgeState)) (k : EdgeKey) (v : EdgeState)
    (k' : EdgeKey) (h : k' ≠ k) : eget (eStore m k v) k' = eget m k' := by
  induction m with
  | nil =>
    simp only [eStore, eget]
    rw [if_neg (fun he => h he.symm)]
  | cons e rest ih =>
    obtain ⟨k0, v0⟩ := e
    by_cases h0 : k0 = k
    · simp only [eStore, if_pos h0, eget]
      rw [if_neg (fun he => h he.symm), if_neg (fun he => h (h0 ▸ he).symm)]
    · simp only [eStore, if_neg h0, eget]
      by_cases h1 : k0 = k'
      · rw [if_pos h1, if_pos h1]
      · rw [if_neg h1, if_neg h1]
        exact ih

theorem eStore_eStore_self (m : List (EdgeKey × EdgeState)) (k : EdgeKey) (v : EdgeState) :
    eStore (eStore m k v) k v = eStore m k v := by
  induction m with
  | nil => simp [eStore]
  | cons e rest ih =>
    obtain ⟨k0, v0⟩ := e
    by_cases h0 : k0 = k
    · simp [eStore, if_pos h0]
    · simp only [eStore, if_neg h0]
      rw [ih]

theorem eStore_mem (m : List (EdgeKey × EdgeState)) (k : EdgeKey) (v : EdgeState)
    (e : EdgeKey × EdgeState) (h : e ∈ eStore m k v) : e = (k, v) ∨ e ∈ m := by
  induction m with
  | nil =>
    simp only [eStore, List.mem_singleton] at h
    left; exact h
  | cons e0 rest ih =>
    obtain ⟨k0, v0⟩ := e0
    by_cases h0 : k0 = k
    · simp only [eStore, if_pos h0] at h
      rcases List.mem_cons.mp h with h1 | h1
      · left; exact h1
      · right; exact List.mem_cons_of_mem _ h1
    · simp only [eStore, if_neg h0] at h
      rcases List.mem_cons.mp h with h1 | h1
      · right; rw [h1]; exact List.mem_cons_self _ _
      · rcases ih h1 with h2 | h2
        · left; exact h2
        · right; exact List.mem_cons_of_mem _ h2

theorem eget_mem (m : List (EdgeKey × EdgeState)) (k : EdgeKey) (st : EdgeState)
    (hg : eget m k = some st) : (k, st) ∈ m := by
  induction m with
  | nil => simp [eget] at hg
  | cons e rest ih =>
    obtain ⟨k0, v0⟩ := e
    simp only [eget] at hg
    by_cases h0 : k0 = k
    · rw [if_pos h0] at hg
      subst h0
      cases Option.some.inj hg
      exact List.mem_cons_self _ _
    · rw [if_neg h0] at hg
      exact List.mem_cons_of_mem _ (ih hg)

theorem dropToLimit_length_le {α : Type} (l : List α) (limit : Nat)
    (h : l.length ≤ limit) : (dropToLimit l limit).length ≤ limit := by
  unfold dropToLimit
  split
  · rw [List.length_drop]; omega
  · exact h

theorem dropToLimit_length_le_of_append {α : Type} (l : List α) (x : α) (limit : Nat)
    (h : l.length ≤ limit) : (dropToLimit (l ++ [x]) limit).length ≤ limit := by
  unfold dropToLimit
  split
  · rw [List.length_drop]; omega
  · rename_i h2
    simp only [List.length_append, List.length_singleton] at h2 ⊢
    omega

theorem edgeState_eta (st : EdgeState) (t : Nat) (h : st.lastSeenMs = t) :
    ({ st with stats := st.stats, lastSeenMs := t } : EdgeState) = st := by
  cases st
  simp only at h
  rw [← h]

theorem update_latency_stats_count (stats : EdgeStats) (samples : List Nat) :
    (update_latency_stats stats samples).count = stats.count := by
  unfold update_latency_stats
  split <;> rfl

theorem update_latency_stats_bytesIn (stats : EdgeStats) (samples : List Nat) :
    (update_latency_stats stats samples).bytesIn = stats.bytesIn := by
  unfold update_latency_stats
  split <;> rfl

theorem update_latency_stats_bytesOut (stats : EdgeStats) (samples : List Nat) :
    (update_latency_stats stats samples).bytesOut = stats.bytesOut := by
  unfold update_latency_stats
  split <;> rfl

theorem update_latency_stats_errors (stats : EdgeStats) (samples : List Nat) :
    (update_latency_stats stats samples).errors = stats.errors := by
  unfold update_latency_stats
  split <;> rfl

theorem update_latency_stats_visibility (stats : EdgeStats) (samples : List Nat) :
    (update_latency_stats stats samples).visibility = stats.visibility := by
  unfold update_latency_stats
  split <;> rfl

/-- The edge state written by `emit_http`'s in-lock update, characterized
field by field against the stored baseline. -/
theorem emit_http_update_spec (s : TrafficHubState) (http : HttpObservation) :
    ∃ st1 : EdgeState,
      emit_http_update s http =
        ({ s with edges := eStore s.edges (emit_http_key http) st1 },
         { key := emit_http_key http, stats := st1.stats, lastSeenMs := http.atMs }) ∧
      st1.lastSeenMs = http.atMs ∧
      st1.stats.count = (emit_http_baseline s http).stats.count + 1 ∧
      st1.stats.bytesIn = (emit_http_baseline s http).stats.bytesIn + http.bytesIn.getD 0 ∧
      st1.stats.bytesOut = (emit_http_baseline s http).stats.bytesOut + http.bytesOut.getD 0 ∧
      st1.stats.errors = (emit_http_baseline s http).stats.errors +
        (match http.status with
         | some status => if status ≥ 400 then 1 else 0
         | none => 0) ∧
      st1.stats.visibility =
        Visibility.merge (emit_http_baseline s http).stats.visibility http.attrs.visibility ∧
      (∀ d, http.durationMs = some d →
        st1.latencies =
          dropToLimit ((emit_http_baseline s http).latencies ++ [d]) LATENCY_SAMPLE_LIMIT ∧
        st1.stats.p50Ms = some (percentile (sortNat st1.latencies) 50) ∧
        st1.stats.p95Ms = some (percentile (sortNat st1.latencies) 95)) ∧
      (http.durationMs = none → st1.latencies = (emit_http_baseline s http).latencies) := by
  have hp : ∀ (stats : EdgeStats) (lat : List Nat), lat ≠ [] →
      (update_latency_stats stats lat).p50Ms = some (percentile (sortNat lat) 50) ∧
      (update_latency_stats stats lat).p95Ms = some (percentile (sortNat lat) 95) := by
    intro stats lat hne
    unfold update_latency_stats
    rw [if_neg (by simpa [List.isEmpty_iff] using hne)]
    exact ⟨rfl, rfl⟩
  have hne : ∀ (l : List Nat) (d : Nat),
      dropToLimit (l ++ [d]) LATENCY_SAMPLE_LIMIT ≠ [] := by
    intro l d hc
    have := dropToLimit_getLast' l d LATENCY_SAMPLE_LIMIT
      (by unfold LATENCY_SAMPLE_LIMIT; omega)
    rw [hc] at this
    simp at this
  unfold emit_http_update
  cases hd : http.durationMs with
  | none =>
    cases hs : http.status with
    | none =>
      dsimp only
      exact ⟨_, rfl, rfl, rfl, rfl, rfl, rfl, rfl,
        fun d hc => absurd hc (by simp), fun _ => rfl⟩
    | some status =>
      dsimp only
      by_cases h4 : status ≥ 400
      · simp only [if_pos h4]
        exact ⟨_, rfl, rfl, rfl, rfl, rfl, rfl, rfl,
          fun d hc => absurd hc (by simp), fun _ => rfl⟩
      · simp only [if_neg h4]
        exact ⟨_, rfl, rfl, rfl, rfl, rfl, rfl, rfl,
          fun d hc => absurd hc (by simp), fun _ => rfl⟩
  | some d =>
    cases hs : http.status with
    | none =>
      dsimp only
      refine ⟨_, rfl, rfl, ?_, ?_, ?_, ?_, ?_, ?_, fun hc => absurd hc (by simp)⟩
      · rw [update_latency_stats_count]
      · rw [update_latency_stats_bytesIn]
      · rw [update_latency_stats_bytesOut]
      · rw [update_latency_stats_errors]
        exact (Nat.add_zero _).symm
      · rw [update_latency_stats_visibility]
      · intro d' hd'
        cases Option.some.inj hd'
        exact ⟨rfl, (hp _ _ (hne _ _)).1, (hp _ _ (hne _ _)).2⟩
    | some status =>
      dsimp only
      by_cases h4 : status ≥ 400
      · simp only [if_pos h4]
        refine ⟨_, rfl, rfl, ?_, ?_, ?_, ?_, ?_, ?_, fun hc => absurd hc (by simp)⟩
        · rw [update_latency_stats_count]
        · rw [update_latency_stats_bytesIn]
        · rw [update_latency_stats_bytesOut]
        · rw [update_latency_stats_errors]
        · rw [update_latency_stats_visibility]
        · intro d' hd'
          cases Option.some.inj hd'
          exact ⟨rfl, (hp _ _ (hne _ _)).1, (hp _ _ (hne _ _)).2⟩
      · simp only [if_neg h4]
        refine ⟨_, rfl, rfl, ?_, ?_, ?_, ?_, ?_, ?_, fun hc => absurd hc (by simp)⟩
        · rw [update_latency_stats_count]
        · rw [update_latency_stats_bytesIn]
        · rw [update_latency_stats_bytesOut]
        · rw [update_latency_stats_errors]
          exact (Nat.add_zero _).symm
        · rw [update_latency_stats_visibility]
        · intro d' hd'
          cases Option.some.inj hd'
          exact ⟨rfl, (hp _ _ (hne _ _)).1, (hp _ _ (hne _ _)).2⟩

theorem hub_publish_call_fst_edges (s : TrafficHubState) (http : HttpObservation)
    (limit : Nat) : ((hub_publish_call s http limit).1).edges = s.edges := rfl

theorem hub_publish_edge_calls (s : TrafficHubState) (edge : TrafficEdge) :
    (hub_publish_edge s edge).calls = s.calls := rfl

theorem emit_http_edges (s : TrafficHubState) (http : HttpObservation) (limit : Nat)
    (st1 : EdgeState)
    (hupd : emit_http_update s http =
      ({ s with edges := eStore s.edges (emit_http_key http) st1 },
       { key := emit_http_key http, stats := st1.stats, lastSeenMs := http.atMs }))
    (hlast : st1.lastSeenMs = http.atMs) :
    (emit_http s http limit).edges = eStore s.edges (emit_http_key http) st1 := by
  unfold emit_http
  rw [hupd]
  show (hub_publish_call (hub_publish_edge _ _) http limit).1.edges = _
  rw [hub_publish_call_fst_edges]
  unfold hub_publish_edge
  simp only
  rw [eget_eStore_self]
  simp only
  rw [edgeState_eta st1 http.atMs hlast]
  exact eStore_eStore_self _ _ _

theorem emit_http_calls (s : TrafficHubState) (http : HttpObservation) (limit : Nat)
    (st1 : EdgeState)
    (hupd : emit_http_update s http =
      ({ s with edges := eStore s.edges (emit_http_key http) st1 },
       { key := emit_http_key http, stats := st1.stats, lastSeenMs := http.atMs })) :
    (emit_http s http limit).calls =
      dropToLimit (s.calls ++
        [{ seq := s.nextCallSeq, atMs := http.atMs, peer := http.peer
           method := http.method, path := http.path, status := http.status
           durationMs := http.durationMs, bytesIn := http.bytesIn
           bytesOut := http.bytesOut, requestHeaders := http.requestHeaders
           responseHeaders := http.responseHeaders, requestBody := http.requestBody
           responseBody := http.responseBody, correlation := http.correlation
           attrs := http.attrs }]) limit ∧
    (emit_http s http limit).nextCallSeq = s.nextCallSeq + 1 := by
  unfold emit_http
  rw [hupd]
  exact ⟨rfl, rfl⟩

/-- Claim C3: each HTTP observation emitted to the traffic edge hub bumps the
matching edge's count by one, adds the observed byte counts, bumps the error
counter by exactly one iff the status is at least 400, merges the visibility
monotonically, and, when a duration is present, appends it to the latency
sample — bounded by 256 with the oldest evicted — and recomputes p50/p95
over the sorted sample. -/
theorem C3_emit_http_edge_stats (s : TrafficHubState) (http : HttpObservation)
    (limit : Nat)
    (hwf : ∀ e ∈ s.edges, e.2.latencies.length ≤ LATENCY_SAMPLE_LIMIT) :
    ∃ st1 : EdgeState,
      eget (emit_http s http limit).edges (emit_http_key http) = some st1 ∧
      st1.stats.count = (emit_http_baseline s http).stats.count + 1 ∧
      st1.stats.bytesIn = (emit_http_baseline s http).stats.bytesIn + http.bytesIn.getD 0 ∧
      st1.stats.bytesOut = (emit_http_baseline s http).stats.bytesOut + http.bytesOut.getD 0 ∧
      st1.stats.errors = (emit_http_baseline s http).stats.errors +
        (match http.status with
         | some status => if status ≥ 400 then 1 else 0
         | none => 0) ∧
      st1.stats.visibility =
        Visibility.merge (emit_http_baseline s http).stats.visibility http.attrs.visibility ∧
      (∀ d, http.durationMs = some d →
        st1.latencies =
          dropToLimit ((emit_http_baseline s http).latencies ++ [d]) LATENCY_SAMPLE_LIMIT ∧
        st1.latencies.getLast? = some d ∧
        st1.stats.p50Ms = some (percentile (sortNat st1.latencies) 50) ∧
        st1.stats.p95Ms = some (percentile (sortNat st1.latencies) 95)) ∧
      (http.durationMs = none → st1.latencies = (emit_http_baseline s http).latencies) ∧
      (∀ e ∈ (emit_http s http limit).edges, e.2.latencies.length ≤ LATENCY_SAMPLE_LIMIT) := by
  obtain ⟨st1, hupd, hlast, hcount, hbi, hbo, herr, hvis, hdur, hnodur⟩ :=
    emit_http_update_spec s http
  have hbase_len : (emit_http_baseline s http).latencies.length ≤ LATENCY_SAMPLE_LIMIT := by
    unfold emit_http_baseline
    cases hg : eget s.edges (emit_http_key http) with
    | none => simp
    | some st => exact hwf _ (eget_mem _ _ _ hg)
  have hst1_len : st1.latencies.length ≤ LATENCY_SAMPLE_LIMIT := by
    cases hd : http.durationMs with
    | none => rw [hnodur hd]; exact hbase_len
    | some d =>
      obtain ⟨hlat, -, -⟩ := hdur d hd
      rw [hlat]
      exact dropToLimit_length_le_of_append _ _ _ hbase_len
  have hedges := emit_http_edges s http limit st1 hupd hlast
  refine ⟨st1, ?_, hcount, hbi, hbo, herr, hvis, ?_, hnodur, ?_⟩
  · rw [hedges]
    exact eget_eStore_self _ _ _
  · intro d hd
    obtain ⟨hlat, hp50, hp95⟩ := hdur d hd
    refine ⟨hlat, ?_, hp50, hp95⟩
    rw [hlat]
    exact dropToLimit_getLast' _ _ _ (by unfold LATENCY_SAMPLE_LIMIT; omega)
  · intro e he
    rw [hedges] at he
    rcases eStore_mem _ _ _ _ he with h1 | h1
    · rw [h1]; exact hst1_len
    · exact hwf _ h1

theorem C3_emit_http_edge_stats_witness :
    (∀ e ∈ (TrafficHubState.new).edges, e.2.latencies.length ≤ LATENCY_SAMPLE_LIMIT) ∧
    ∃ st1 : EdgeState,
      eget (emit_http TrafficHubState.new
          { atMs := 5, peer := { src := none, dst := none, raw := none }
            method := some "get", path := some "/x", status := some 500
            durationMs := some 12, bytesIn := some 3, bytesOut := some 4
            requestHeaders := [], responseHeaders := [], requestBody := none
            responseBody := none, correlation := {}
            attrs := { visibility := .l7Semantics, confidence := .exact, tags := [] } }
          100).edges
        (emit_http_key
          { atMs := 5, peer := { src := none, dst := none, raw := none }
            method := some "get", path := some "/x", status := some 500
            durationMs := some 12, bytesIn := some 3, bytesOut := some 4
            requestHeaders := [], responseHeaders := [], requestBody := none
            responseBody := none, correlation := {}
            attrs := { visibility := .l7Semantics, confidence := .exact, tags := [] } }) =
        some st1 ∧ st1.stats.count = 1 ∧ st1.stats.errors = 1 := by
  refine ⟨fun e he => by simp [TrafficHubState.new] at he, ?_⟩
  obtain ⟨st1, hg, hcount, -, -, herr, -, -, -, -⟩ :=
    C3_emit_http_edge_stats TrafficHubState.new
      { atMs := 5, peer := { src := none, dst := none, raw := none }
        method := some "get", path := some "/x", status := some 500
        durationMs := some 12, bytesIn := some 3, bytesOut := some 4
        requestHeaders := [], responseHeaders := [], requestBody := none
        responseBody := none, correlation := {}
        attrs := { visibility := .l7Semantics, confidence := .exact, tags := [] } }
      100
      (fun e he => by simp [TrafficHubState.new] at he)
  refine ⟨st1, hg, ?_, ?_⟩
  · rw [hcount]; rfl
  · rw [herr]; rfl

/-- Claim C10: each HTTP observation yields exactly one edge update — at the
key built from unknown entities for unresolved peers, `UNKNOWN` for a missing
method, the uppercased method otherwise, and route `/` for a missing path —
leaving every other edge untouched, and exactly one traffic call appended
with the next sequence number and the observation's method and path. -/
theorem C10_emit_http_single_update (s : TrafficHubState) (http : HttpObservation)
    (limit : Nat) :
    (∀ k : EdgeKey,
      k ≠ EdgeKey.http (http.peer.src.getD .unknown) (http.peer.dst.getD .unknown)
            (rustUppercase (http.method.getD "UNKNOWN")) (http.path.getD "/") →
      eget (emit_http s http limit).edges k = eget s.edges k) ∧
    (∃ st1 : EdgeState,
      eget (emit_http s http limit).edges
          (EdgeKey.http (http.peer.src.getD .unknown) (http.peer.dst.getD .unknown)
            (rustUppercase (http.method.getD "UNKNOWN")) (http.path.getD "/")) =
        some st1 ∧
      st1.stats.count = (emit_http_baseline s http).stats.count + 1) ∧
    (∃ call : TrafficCall,
      (emit_http s http limit).calls = dropToLimit (s.calls ++ [call]) limit ∧
      call.seq = s.nextCallSeq ∧
      call.atMs = http.atMs ∧
      call.method = http.method ∧
      call.path = http.path ∧
      (emit_http s http limit).nextCallSeq = s.nextCallSeq + 1) := by
  obtain ⟨st1, hupd, hlast, hcount, -, -, -, -, -, -⟩ := emit_http_update_spec s http
  have hkey : emit_http_key http =
      EdgeKey.http (http.peer.src.getD .unknown) (http.peer.dst.getD .unknown)
        (rustUppercase (http.method.getD "UNKNOWN")) (http.path.getD "/") := rfl
  have hedges := emit_http_edges s http limit st1 hupd hlast
  obtain ⟨hcalls, hseq⟩ := emit_http_calls s http limit st1 hupd
  refine ⟨?_, ⟨st1, ?_, hcount⟩, ?_⟩
  · intro k hk
    rw [← hkey] at hk
    rw [hedges]
    exact eget_eStore_ne _ _ _ _ hk
  · rw [← hkey, hedges]
    exact eget_eStore_self _ _ _
  · exact ⟨_, hcalls, rfl, rfl, rfl, rfl, hseq⟩

theorem C10_emit_http_single_update_witness :
    EdgeKey.flow .unknown .unknown Transport.tcp 1 ≠
      EdgeKey.http (EntityId.unknown) (EntityId.unknown) "UNKNOWN" "/" ∧
    eget (emit_http TrafficHubState.new
        { atMs := 1, peer := { src := none, dst := none, raw := none }
          method := none, path := none, status := none
          durationMs := none, bytesIn := none, bytesOut := none
          requestHeaders := [], responseHeaders := [], requestBody := none
          responseBody := none, correlation := {}
          attrs := { visibility := .l4Flow, confidence := .likely, tags := [] } }
        10).edges
      (EdgeKey.flow .unknown .unknown Transport.tcp 1) = none := by
  refine ⟨by simp, ?_⟩
  have h := (C10_emit_http_single_update TrafficHubState.new
    { atMs := 1, peer := { src := none, dst := none, raw := none }
      method := none, path := none, status := none
      durationMs := none, bytesIn := none, bytesOut := none
      requestHeaders := [], responseHeaders := [], requestBody := none
      responseBody := none, correlation := {}
      attrs := { visibility := .l4Flow, confidence := .likely, tags := [] } }
    10).1 (EdgeKey.flow .unknown .unknown Transport.tcp 1) (by simp)
  rw [h]
  rfl


/-! ## Mapping lookup lemmas (for the `depends_on` rewrite) -/

theorem mget_eq_none_iff (m : Mapping) (k : String) :
    mget m k = none ↔ ∀ e ∈ m, e.1 ≠ k := by
  induction m with
  | nil => simp [mget]
  | cons e rest ih =>
    obtain ⟨k', v⟩ := e
    by_cases h : k' = k
    · simp [mget, h]
    · simp [mget, h, ih]

theorem mget_mem {m : Mapping} {k : String} {v : Yaml} (h : mget m k = some v) :
    (k, v) ∈ m := by
  induction m with
  | nil => simp [mget] at h
  | cons e rest ih =>
    obtain ⟨k', v'⟩ := e
    by_cases hk : k' = k
    · subst hk
      simp [mget] at h
      subst h
      exact List.mem_cons_self _ _
    · simp [mget, hk] at h
      exact List.mem_cons_of_mem _ (ih h)

theorem mem_mget {m : Mapping} (hnd : (m.map Prod.fst).Nodup) {k : String} {v : Yaml}
    (h : (k, v) ∈ m) : mget m k = some v := by
  induction m with
  | nil => simp at h
  | cons e rest ih =>
    obtain ⟨k', v'⟩ := e
    rcases List.mem_cons.mp h with h1 | h1
    · rw [Prod.mk.injEq] at h1
      simp [mget, h1.1.symm, h1.2]
    · have hne : k' ≠ k := by
        intro hkk
        subst hkk
        have : k' ∈ rest.map Prod.fst := List.mem_map_of_mem Prod.fst h1
        exact (List.nodup_cons.mp hnd).1 this
      simp [mget, hne]
      exact ih (List.nodup_cons.mp hnd).2 h1

theorem mget_append (l1 l2 : Mapping) (k : String) :
    mget (l1 ++ l2) k =
      match mget l1 k with
      | some v => some v
      | none => mget l2 k := by
  induction l1 with
  | nil => simp [mget]
  | cons e rest ih =>
    obtain ⟨k', v'⟩ := e
    by_cases h : k' = k
    · simp [mget, h]
    · simp [mget, h, ih]

theorem mget_minsert_self (m : Mapping) (k : String) (v : Yaml) :
    mget (minsert m k v) k = some v := by
  induction m with
  | nil => simp [minsert, mget]
  | cons e rest ih =>
    obtain ⟨k', v'⟩ := e
    by_cases h : k' = k
    · simp [minsert, h, mget]
    · simp [minsert, h, mget, ih]

theorem mget_minsert_ne (m : Mapping) {k k' : String} (v : Yaml) (h : k' ≠ k) :
    mget (minsert m k v) k' = mget m k' := by
  induction m with
  | nil => simp [minsert, mget, Ne.symm h]
  | cons e rest ih =>
    obtain ⟨k0, v0⟩ := e
    by_cases h0 : k0 = k
    · subst h0
      simp [minsert, mget, Ne.symm h]
    · by_cases h1 : k0 = k'
      · simp [minsert, h0, mget, h1, h]
      · simp [minsert, h0, mget, h1, ih]

theorem mem_minsert {m : Mapping} {k : String} {v : Yaml} {e : String × Yaml}
    (h : e ∈ minsert m k v) : e = (k, v) ∨ e ∈ m := by
  induction m with
  | nil =>
    simp [minsert] at h
    exact Or.inl h
  | cons e0 rest ih =>
    obtain ⟨k0, v0⟩ := e0
    by_cases h0 : k0 = k
    · simp [minsert, h0] at h
      rcases h with h | h
      · exact Or.inl h
      · exact Or.inr (List.mem_cons_of_mem _ h)
    · simp [minsert, h0] at h
      rcases h with h | h
      · exact Or.inr (List.mem_cons.mpr (Or.inl h))
      · rcases ih h with h1 | h1
        · exact Or.inl h1
        · exact Or.inr (List.mem_cons_of_mem _ h1)

theorem nodup_keys_minsert {m : Mapping} (hnd : (m.map Prod.fst).Nodup)
    (k : String) (v : Yaml) : ((minsert m k v).map Prod.fst).Nodup := by
  induction m with
  | nil => simp [minsert]
  | cons e0 rest ih =>
    obtain ⟨k0, v0⟩ := e0
    obtain ⟨hk0, hrest⟩ := List.nodup_cons.mp hnd
    by_cases h0 : k0 = k
    · have hmins : minsert ((k0, v0) :: rest) k v = (k, v) :: rest := by
        simp [minsert, h0]
      rw [hmins, List.map_cons]
      exact List.nodup_cons.mpr ⟨h0 ▸ hk0, hrest⟩
    · have hmins : minsert ((k0, v0) :: rest) k v = (k0, v0) :: minsert rest k v := by
        simp [minsert, h0]
      rw [hmins, List.map_cons]
      refine List.nodup_cons.mpr ⟨?_, ih hrest⟩
      intro hmem
      simp only [List.mem_map] at hmem
      obtain ⟨e, he, hfst⟩ := hmem
      rcases mem_minsert he with h1 | h1
      · exact h0 (by rw [← hfst, h1])
      · exact hk0 (List.mem_map.mpr ⟨e, h1, hfst⟩)


theorem getLast?_none_eq_nil {α : Type} : ∀ (l : List α), l.getLast? = none → l = []
  | [], _ => rfl
  | [a], h => by simp at h
  | a :: b :: t, h => by
    rw [List.getLast?_cons_cons] at h
    exact absurd (getLast?_none_eq_nil (b :: t) h) (by simp)

theorem dropLast_concat_getLast' {α : Type} : ∀ (l : List α) (a : α),
    l.getLast? = some a → l.dropLast ++ [a] = l
  | [], a, h => by simp at h
  | [x], a, h => by
    simp at h
    simp [h]
  | x :: y :: t, a, h => by
    rw [List.getLast?_cons_cons] at h
    have ih := dropLast_concat_getLast' (y :: t) a h
    simp only [List.dropLast_cons₂, List.cons_append, ih]

theorem mem_of_mem_dropLast_concat {α : Type} {l : List α} {a : α} {e : α}
    (hg : l.getLast? = some a) (h : e ∈ a :: l.dropLast) : e ∈ l := by
  have hconcat := dropLast_concat_getLast' l a hg
  rcases List.mem_cons.mp h with h1 | h1
  · rw [h1, ← hconcat]
    exact List.mem_append_right _ (by simp)
  · rw [← hconcat]
    exact List.mem_append_left _ h1

theorem mem_mSwapRemove {m : Mapping} {k : String} {e : String × Yaml}
    (h : e ∈ mSwapRemove m k) : e ∈ m := by
  induction m with
  | nil => simpa [mSwapRemove] using h
  | cons e0 rest ih =>
    obtain ⟨k0, v0⟩ := e0
    by_cases h0 : k0 = k
    · cases hg : rest.getLast? with
      | none =>
        have hrw : mSwapRemove ((k0, v0) :: rest) k = [] := by
          simp [mSwapRemove, h0, hg]
        rw [hrw] at h
        simp at h
      | some last =>
        have hrw : mSwapRemove ((k0, v0) :: rest) k = last :: rest.dropLast := by
          simp [mSwapRemove, h0, hg]
        rw [hrw] at h
        exact List.mem_cons_of_mem _ (mem_of_mem_dropLast_concat hg h)
    · have hrw : mSwapRemove ((k0, v0) :: rest) k = (k0, v0) :: mSwapRemove rest k := by
        simp [mSwapRemove, h0]
      rw [hrw] at h
      rcases List.mem_cons.mp h with h1 | h1
      · exact h1 ▸ List.mem_cons_self _ _
      · exact List.mem_cons_of_mem _ (ih h1)

theorem mget_mSwapRemove_self {m : Mapping} (hnd : (m.map Prod.fst).Nodup) (k : String) :
    mget (mSwapRemove m k) k = none := by
  induction m with
  | nil => simp [mSwapRemove, mget]
  | cons e0 rest ih =>
    obtain ⟨k0, v0⟩ := e0
    obtain ⟨hk0, hrest⟩ := List.nodup_cons.mp hnd
    by_cases h0 : k0 = k
    · cases hg : rest.getLast? with
      | none =>
        have hrw : mSwapRemove ((k0, v0) :: rest) k = [] := by
          simp [mSwapRemove, h0, hg]
        rw [hrw]
        rfl
      | some last =>
        have hrw : mSwapRemove ((k0, v0) :: rest) k = last :: rest.dropLast := by
          simp [mSwapRemove, h0, hg]
        rw [hrw, mget_eq_none_iff]
        intro e he hek
        exact hk0 (List.mem_map.mpr
          ⟨e, mem_of_mem_dropLast_concat hg he, hek.trans h0.symm⟩)
    · have hrw : mSwapRemove ((k0, v0) :: rest) k = (k0, v0) :: mSwapRemove rest k := by
        simp [mSwapRemove, h0]
      rw [hrw]
      simp only [mget]
      rw [if_neg h0]
      exact ih hrest

theorem mget_mSwapRemove_ne {m : Mapping} (hnd : (m.map Prod.fst).Nodup)
    {k k' : String} (h : k' ≠ k) : mget (mSwapRemove m k) k' = mget m k' := by
  induction m with
  | nil => simp [mSwapRemove]
  | cons e0 rest ih =>
    obtain ⟨k0, v0⟩ := e0
    obtain ⟨hk0, hrest⟩ := List.nodup_cons.mp hnd
    by_cases h0 : k0 = k
    · have hk0k' : ¬ k0 = k' := fun he => h (he ▸ h0)
      cases hg : rest.getLast? with
      | none =>
        have hnil := getLast?_none_eq_nil rest hg
        subst hnil
        have hrw : mSwapRemove [(k0, v0)] k = [] := by
          simp [mSwapRemove, h0]
        rw [hrw]
        simp [mget, hk0k']
      | some last =>
        obtain ⟨kl, vl⟩ := last
        have hconcat := dropLast_concat_getLast' rest (kl, vl) hg
        have hrw : mSwapRemove ((k0, v0) :: rest) k = (kl, vl) :: rest.dropLast := by
          simp [mSwapRemove, h0, hg]
        rw [hrw]
        rw [show mget ((k0, v0) :: rest) k' = mget rest k' from by simp [mget, hk0k']]
        have hnd' : ((rest.dropLast ++ [(kl, vl)]).map Prod.fst).Nodup := by
          rw [hconcat]
          exact hrest
        rw [List.map_append] at hnd'
        obtain ⟨hnd1, hnd2, hdisj⟩ := List.nodup_append.mp hnd'
        by_cases hl : kl = k'
        · have hnone : mget rest.dropLast k' = none := by
            rw [mget_eq_none_iff]
            intro e he hek
            exact hdisj (List.mem_map.mpr ⟨e, he, hek⟩) (by simp [hl])
          rw [← hconcat, mget_append, hnone]
          simp [mget, hl]
        · cases hd : mget rest.dropLast k' with
          | some v =>
            rw [← hconcat, mget_append, hd]
            simp [mget, hl, hd]
          | none =>
            rw [← hconcat, mget_append, hd]
            simp [mget, hl, hd]
    · have hrw : mSwapRemove ((k0, v0) :: rest) k = (k0, v0) :: mSwapRemove rest k := by
        simp [mSwapRemove, h0]
      rw [hrw]
      by_cases h1 : k0 = k'
      · simp [mget, h1]
      · simp [mget, h1, ih hrest]

theorem nodup_keys_mSwapRemove {m : Mapping} (hnd : (m.map Prod.fst).Nodup) (k : String) :
    ((mSwapRemove m k).map Prod.fst).Nodup := by
  induction m with
  | nil => simp [mSwapRemove]
  | cons e0 rest ih =>
    obtain ⟨k0, v0⟩ := e0
    obtain ⟨hk0, hrest⟩ := List.nodup_cons.mp hnd
    by_cases h0 : k0 = k
    · cases hg : rest.getLast? with
      | none =>
        have hrw : mSwapRemove ((k0, v0) :: rest) k = [] := by
          simp [mSwapRemove, h0, hg]
        rw [hrw]
        simp
      | some last =>
        have hconcat := dropLast_concat_getLast' rest last hg
        have hrw : mSwapRemove ((k0, v0) :: rest) k = last :: rest.dropLast := by
          simp [mSwapRemove, h0, hg]
        rw [hrw]
        have hnd' : ((rest.dropLast ++ [last]).map Prod.fst).Nodup := by
          rw [hconcat]
          exact hrest
        rw [List.map_append] at hnd'
        obtain ⟨hnd1, hnd2, hdisj⟩ := List.nodup_append.mp hnd'
        rw [List.map_cons]
        refine List.nodup_cons.mpr ⟨?_, hnd1⟩
        intro hmem
        exact hdisj hmem (by simp)
    · have hrw : mSwapRemove ((k0, v0) :: rest) k = (k0, v0) :: mSwapRemove rest k := by
        simp [mSwapRemove, h0]
      rw [hrw, List.map_cons]
      refine List.nodup_cons.mpr ⟨?_, ih hrest⟩
      intro hmem
      simp only [List.mem_map] at hmem
      obtain ⟨e, he, hfst⟩ := hmem
      exact hk0 (List.mem_map.mpr ⟨e, mem_mSwapRemove he, hfst⟩)

theorem mget_mAdjust (m : Mapping) (k : String) (f : Yaml → Yaml) :
    mget (mAdjust m k f) k = (mget m k).map f := by
  induction m with
  | nil => simp [mAdjust, mget]
  | cons e0 rest ih =>
    obtain ⟨k0, v0⟩ := e0
    by_cases h0 : k0 = k
    · subst h0
      have hhead : mAdjust ((k0, v0) :: rest) k0 f = (k0, f v0) :: mAdjust rest k0 f := by
        unfold mAdjust
        rw [List.map_cons]
        congr 1
        simp
      rw [hhead]
      simp [mget]
    · have hhead : mAdjust ((k0, v0) :: rest) k f = (k0, v0) :: mAdjust rest k f := by
        unfold mAdjust
        rw [List.map_cons]
        congr 1
        simp [h0]
      rw [hhead]
      simp [mget, h0, ih]


/-- Invariant of the `replacements` loop in `rewrite_depends_on_for_proxies`:
with unique keys, every replaced key present, no app name already a key, and
distinct olds and apps, the loop installs each config under its app name,
removes each old key and leaves every other key untouched. -/
theorem depends_replacements_fold (reps : List (String × String × Yaml)) :
    ∀ (dm : Mapping),
      (dm.map Prod.fst).Nodup →
      (∀ r ∈ reps, ∃ v, (r.1, v) ∈ dm) →
      (∀ r ∈ reps, ∀ e ∈ dm, e.1 ≠ r.2.1) →
      ((reps.map (fun r => r.2.1)).Nodup) →
      ((reps.map Prod.fst).Nodup) →
      (∀ r ∈ reps,
          mget (reps.foldl (fun acc r => minsert (mSwapRemove acc r.1) r.2.1 r.2.2) dm)
            r.2.1 = some r.2.2) ∧
      (∀ r ∈ reps,
          mget (reps.foldl (fun acc r => minsert (mSwapRemove acc r.1) r.2.1 r.2.2) dm)
            r.1 = none) ∧
      (∀ k, (∀ r ∈ reps, k ≠ r.1 ∧ k ≠ r.2.1) →
          mget (reps.foldl (fun acc r => minsert (mSwapRemove acc r.1) r.2.1 r.2.2) dm) k
            = mget dm k) := by
  induction reps with
  | nil =>
    intro dm _ _ _ _ _
    exact ⟨by simp, by simp, fun k _ => by simp⟩
  | cons r rest ih =>
    intro dm hnd holds hfresh happnd holdnd
    obtain ⟨vh, hvh⟩ := holds r (List.mem_cons_self _ _)
    have hr1app : r.1 ≠ r.2.1 := hfresh r (List.mem_cons_self _ _) (r.1, vh) hvh
    obtain ⟨hr1notin, holdnd'⟩ := List.nodup_cons.mp holdnd
    obtain ⟨happ_notin, happnd'⟩ := List.nodup_cons.mp happnd
    have hnd1 : ((minsert (mSwapRemove dm r.1) r.2.1 r.2.2).map Prod.fst).Nodup :=
      nodup_keys_minsert (nodup_keys_mSwapRemove hnd r.1) r.2.1 r.2.2
    have hmem1 : ∀ e, e ∈ minsert (mSwapRemove dm r.1) r.2.1 r.2.2 →
        e = (r.2.1, r.2.2) ∨ e ∈ dm := by
      intro e he
      rcases mem_minsert he with h1 | h1
      · exact Or.inl h1
      · exact Or.inr (mem_mSwapRemove h1)
    have holds1 : ∀ r' ∈ rest, ∃ v,
        (r'.1, v) ∈ minsert (mSwapRemove dm r.1) r.2.1 r.2.2 := by
      intro r' hr'
      obtain ⟨v', hv'⟩ := holds r' (List.mem_cons_of_mem _ hr')
      have hne_app : r'.1 ≠ r.2.1 := hfresh r (List.mem_cons_self _ _) (r'.1, v') hv'
      have hne_old : r'.1 ≠ r.1 := by
        intro he
        exact hr1notin (he ▸ List.mem_map_of_mem Prod.fst hr')
      refine ⟨v', mget_mem ?_⟩
      rw [mget_minsert_ne _ _ hne_app, mget_mSwapRemove_ne hnd hne_old]
      exact mem_mget hnd hv'
    have hfresh1 : ∀ r' ∈ rest, ∀ e ∈ minsert (mSwapRemove dm r.1) r.2.1 r.2.2,
        e.1 ≠ r'.2.1 := by
      intro r' hr' e he
      rcases hmem1 e he with h1 | h1
      · rw [h1]
        intro hc
        have hc' : r.2.1 = r'.2.1 := hc
        exact happ_notin (List.mem_map.mpr ⟨r', hr', hc'.symm⟩)
      · exact hfresh r' (List.mem_cons_of_mem _ hr') e h1
    obtain ⟨ihA, ihB, ihC⟩ :=
      ih (minsert (mSwapRemove dm r.1) r.2.1 r.2.2) hnd1 holds1 hfresh1 happnd' holdnd'
    refine ⟨?_, ?_, ?_⟩
    · intro r' hr'
      rw [List.foldl_cons]
      rcases List.mem_cons.mp hr' with h1 | h1
      · rw [h1]
        rw [ihC r.2.1 ?side]
        · exact mget_minsert_self _ _ _
        case side =>
          intro r'' hr''
          refine ⟨?_, ?_⟩
          · intro hc
            obtain ⟨v'', hv''⟩ := holds r'' (List.mem_cons_of_mem _ hr'')
            exact hfresh r (List.mem_cons_self _ _) (r''.1, v'') hv'' hc.symm
          · intro hc
            exact happ_notin (List.mem_map.mpr ⟨r'', hr'', hc.symm⟩)
      · exact ihA r' h1
    · intro r' hr'
      rw [List.foldl_cons]
      rcases List.mem_cons.mp hr' with h1 | h1
      · rw [h1]
        rw [ihC r.1 ?sideb]
        · rw [mget_minsert_ne _ _ hr1app, mget_mSwapRemove_self hnd]
        case sideb =>
          intro r'' hr''
          refine ⟨?_, ?_⟩
          · intro hc
            exact hr1notin (List.mem_map.mpr ⟨r'', hr'', hc.symm⟩)
          · exact hfresh r'' (List.mem_cons_of_mem _ hr'') (r.1, vh) hvh
      · exact ihB r' h1
    · intro k hk
      rw [List.foldl_cons]
      have hk_head := hk r (List.mem_cons_self _ _)
      rw [ihC k (fun r'' hr'' => hk r'' (List.mem_cons_of_mem _ hr''))]
      rw [mget_minsert_ne _ _ hk_head.2, mget_mSwapRemove_ne hnd hk_head.1]


/-- Every element of the `replacements` list built inside
`rewrite_depends_on_for_proxies` comes from an entry of the `depends_on`
mapping whose key is proxied and whose condition is `service_healthy`. -/
theorem depends_reps_spec (pm : List (String × String)) (dep : Mapping)
    {r : String × String × Yaml}
    (h : r ∈ dep.filterMap (fun e =>
      match lookupStr pm e.1 with
      | some appName =>
        if is_service_healthy_condition e.2 then some (e.1, appName, e.2) else none
      | none => none)) :
    (r.1, r.2.2) ∈ dep ∧ lookupStr pm r.1 = some r.2.1 ∧
      is_service_healthy_condition r.2.2 = true := by
  obtain ⟨e, he, hfe⟩ := List.mem_filterMap.mp h
  split at hfe
  next app heq =>
    split at hfe
    next hh =>
      have hr : (e.1, app, e.2) = r := Option.some.inj hfe
      subst hr
      exact ⟨he, heq, hh⟩
    next hh => exact absurd hfe (by simp)
  next heq => exact absurd hfe (by simp)

theorem nodup_keys_filterMap_fst {β : Type} (f : String × Yaml → Option (String × β))
    (hf : ∀ e r, f e = some r → r.1 = e.1) :
    ∀ (dep : Mapping), (dep.map Prod.fst).Nodup →
      ((dep.filterMap f).map Prod.fst).Nodup := by
  intro dep
  induction dep with
  | nil =>
    intro _
    simp
  | cons e rest ih =>
    intro hnd
    obtain ⟨hk, hrest⟩ := List.nodup_cons.mp hnd
    rw [List.filterMap_cons]
    cases hfe : f e with
    | none => exact ih hrest
    | some r =>
      rw [List.map_cons]
      refine List.nodup_cons.mpr ⟨?_, ih hrest⟩
      intro hmem
      obtain ⟨r', hr', hfst⟩ := List.mem_map.mp hmem
      obtain ⟨e', he', hfe'⟩ := List.mem_filterMap.mp hr'
      apply hk
      rw [← hf e r hfe, ← hfst, hf e' r' hfe']
      exact List.mem_map.mpr ⟨e', he', rfl⟩

theorem nodup_apps_depends_reps (pm : List (String × String)) (dep : Mapping)
    (hnd : (dep.map Prod.fst).Nodup)
    (hinj : ∀ k1 k2 a, lookupStr pm k1 = some a → lookupStr pm k2 = some a → k1 = k2) :
    ((dep.filterMap (fun e =>
      match lookupStr pm e.1 with
      | some appName =>
        if is_service_healthy_condition e.2 then some (e.1, appName, e.2) else none
      | none => none)).map (fun r => r.2.1)).Nodup := by
  have hf : ∀ (e : String × Yaml) (r : String × String × Yaml),
      (match lookupStr pm e.1 with
       | some appName =>
         if is_service_healthy_condition e.2 then some (e.1, appName, e.2) else none
       | none => none) = some r → r.1 = e.1 := by
    intro e r hfe
    split at hfe
    next app heq =>
      split at hfe
      next hh => rw [← Option.some.inj hfe]
      next hh => exact absurd hfe (by simp)
    next heq => exact absurd hfe (by simp)
  have hkeys := nodup_keys_filterMap_fst _ hf dep hnd
  have hreps_nodup : (dep.filterMap (fun e =>
      match lookupStr pm e.1 with
      | some appName =>
        if is_service_healthy_condition e.2 then some (e.1, appName, e.2) else none
      | none => none)).Nodup := List.Nodup.of_map _ hkeys
  refine List.Nodup.map_on ?_ hreps_nodup
  intro x hx y hy hxy
  obtain ⟨_, hlx, _⟩ := depends_reps_spec pm dep hx
  obtain ⟨_, hly, _⟩ := depends_reps_spec pm dep hy
  rw [← hxy] at hly
  exact List.inj_on_of_nodup_map hkeys hx hy (hinj x.1 y.1 x.2.1 hlx hly)


theorem lookupStr_single {x y k a : String} (h : lookupStr [(x, y)] k = some a) :
    k = x ∧ a = y := by
  unfold lookupStr at h
  cases hf : List.find? (fun e => e.1 == k) [(x, y)] with
  | none =>
    rw [hf] at h
    simp at h
  | some e =>
    rw [hf] at h
    have hmem := List.mem_of_find?_eq_some hf
    have hp := List.find?_some hf
    simp at hmem
    subst hmem
    simp at hp h
    exact ⟨hp.symm, h.symm⟩

/-- Claim C4 is false as stated: with `depends_on` entries `a` (condition
`service_healthy`, proxied as `a-app`) and `a-app` (condition
`service_started`, not proxied), the rewrite removes `a` and then overwrites
the pre-existing `a-app` entry, so a non-proxied entry is not left
unchanged — its `service_started` condition is replaced by
`service_healthy`. -/
theorem C4_counterexample :
    lookupStr [("a", "a-app")] "a-app" = none ∧
    mget [("a", Yaml.map [("condition", Yaml.str "service_healthy")]),
          ("a-app", Yaml.map [("condition", Yaml.str "service_started")])] "a-app" =
      some (Yaml.map [("condition", Yaml.str "service_started")]) ∧
    mget (rewrite_depends_on_for_proxies
        [("depends_on", Yaml.map
          [("a", Yaml.map [("condition", Yaml.str "service_healthy")]),
           ("a-app", Yaml.map [("condition", Yaml.str "service_started")])])]
        [("a", "a-app")]) "depends_on" =
      some (Yaml.map [("a-app", Yaml.map [("condition", Yaml.str "service_healthy")])]) :=
  ⟨rfl, rfl, rfl⟩

/-- Claim C4 (amended): for a `depends_on` mapping with unique keys in which
no `<name>-app` replacement name already occurs as a key, and with an
injective proxy-to-app map, the rewrite moves every entry whose key is
proxied and whose condition is `service_healthy` to the `<name>-app` key
(keeping the condition configuration and removing the old key), and leaves
every entry with another condition or a non-proxied key unchanged. Without
the freshness requirement a pre-existing `<name>-app` entry is overwritten,
as `C4_counterexample` shows. -/
theorem C4_depends_on_rewrite (service : Mapping) (pm : List (String × String))
    (dep : Mapping)
    (hdep : mget service "depends_on" = some (.map dep))
    (hnd : (dep.map Prod.fst).Nodup)
    (hfresh : ∀ e ∈ dep, ∀ app, lookupStr pm e.1 = some app →
      is_service_healthy_condition e.2 = true → ∀ e' ∈ dep, e'.1 ≠ app)
    (hinj : ∀ k1 k2 a, lookupStr pm k1 = some a → lookupStr pm k2 = some a → k1 = k2) :
    ∃ dm',
      mget (rewrite_depends_on_for_proxies service pm) "depends_on" =
        some (.map dm') ∧
      (∀ e ∈ dep, ∀ app, lookupStr pm e.1 = some app →
        is_service_healthy_condition e.2 = true →
        mget dm' app = some e.2 ∧ mget dm' e.1 = none) ∧
      (∀ e ∈ dep,
        lookupStr pm e.1 = none ∨ is_service_healthy_condition e.2 = false →
        mget dm' e.1 = some e.2) := by
  have hf : ∀ (e : String × Yaml) (r : String × String × Yaml),
      (match lookupStr pm e.1 with
       | some appName =>
         if is_service_healthy_condition e.2 then some (e.1, appName, e.2) else none
       | none => none) = some r → r.1 = e.1 := by
    intro e r hfe
    split at hfe
    next app heq =>
      split at hfe
      next hh => rw [← Option.some.inj hfe]
      next hh => exact absurd hfe (by simp)
    next heq => exact absurd hfe (by simp)
  have hrw : rewrite_depends_on_for_proxies service pm =
      mAdjust service "depends_on" (fun _ => Yaml.map
        ((dep.filterMap (fun e =>
          match lookupStr pm e.1 with
          | some appName =>
            if is_service_healthy_condition e.2 then some (e.1, appName, e.2) else none
          | none => none)).foldl
            (fun dm r => minsert (mSwapRemove dm r.1) r.2.1 r.2.2) dep)) := by
    unfold rewrite_depends_on_for_proxies
    rw [hdep]
  have holds : ∀ r ∈ dep.filterMap (fun e =>
      match lookupStr pm e.1 with
      | some appName =>
        if is_service_healthy_condition e.2 then some (e.1, appName, e.2) else none
      | none => none), ∃ v, (r.1, v) ∈ dep :=
    fun r hr => ⟨r.2.2, (depends_reps_spec pm dep hr).1⟩
  have hfreshF : ∀ r ∈ dep.filterMap (fun e =>
      match lookupStr pm e.1 with
      | some appName =>
        if is_service_healthy_condition e.2 then some (e.1, appName, e.2) else none
      | none => none), ∀ e ∈ dep, e.1 ≠ r.2.1 := by
    intro r hr e he
    obtain ⟨hmem, hl, hh⟩ := depends_reps_spec pm dep hr
    exact hfresh (r.1, r.2.2) hmem r.2.1 hl hh e he
  have happnd := nodup_apps_depends_reps pm dep hnd hinj
  have holdnd := nodup_keys_filterMap_fst _ hf dep hnd
  obtain ⟨fA, fB, fC⟩ := depends_replacements_fold _ dep hnd holds hfreshF happnd holdnd
  refine ⟨(dep.filterMap (fun e =>
      match lookupStr pm e.1 with
      | some appName =>
        if is_service_healthy_condition e.2 then some (e.1, appName, e.2) else none
      | none => none)).foldl
        (fun dm r => minsert (mSwapRemove dm r.1) r.2.1 r.2.2) dep, ?_, ?_, ?_⟩
  · rw [hrw, mget_mAdjust, hdep]
    rfl
  · intro e he app hl hh
    have hr : (e.1, app, e.2) ∈ dep.filterMap (fun e =>
        match lookupStr pm e.1 with
        | some appName =>
          if is_service_healthy_condition e.2 then some (e.1, appName, e.2) else none
        | none => none) := List.mem_filterMap.mpr ⟨e, he, by simp [hl, hh]⟩
    exact ⟨fA (e.1, app, e.2) hr, fB (e.1, app, e.2) hr⟩
  · intro e he hcase
    rw [fC e.1 ?cond]
    · exact mem_mget hnd he
    case cond =>
      intro r hrr
      obtain ⟨hmem, hl, hh⟩ := depends_reps_spec pm dep hrr
      refine ⟨?_, ?_⟩
      · intro hc
        have h1 : mget dep e.1 = some e.2 := mem_mget hnd he
        have h2 : mget dep r.1 = some r.2.2 := mem_mget hnd hmem
        rw [← hc] at h2
        rw [h1] at h2
        have hval : e.2 = r.2.2 := Option.some.inj h2
        rcases hcase with hnone | hfalse
        · rw [hc] at hnone
          rw [hnone] at hl
          exact Option.noConfusion hl
        · rw [← hval] at hh
          rw [hh] at hfalse
          exact Bool.noConfusion hfalse
      · intro hc
        exact hfresh (r.1, r.2.2) hmem r.2.1 hl hh e he hc

/-- Witness: a service depending on `b` (proxied, `service_healthy`) and on
`c` (not proxied, `service_started`): the healthy dependency moves to
`b-app` and the `c` entry is untouched. -/
theorem C4_depends_on_rewrite_witness :
    ∃ dm',
      mget (rewrite_depends_on_for_proxies
          [("depends_on", Yaml.map
            [("b", Yaml.map [("condition", Yaml.str "service_healthy")]),
             ("c", Yaml.map [("condition", Yaml.str "service_started")])])]
          [("b", "b-app")]) "depends_on" = some (.map dm') ∧
      mget dm' "b-app" = some (Yaml.map [("condition", Yaml.str "service_healthy")]) ∧
      mget dm' "b" = none ∧
      mget dm' "c" = some (Yaml.map [("condition", Yaml.str "service_started")]) := by
  have hinj : ∀ k1 k2 a, lookupStr [("b", "b-app")] k1 = some a →
      lookupStr [("b", "b-app")] k2 = some a → k1 = k2 := by
    intro k1 k2 a h1 h2
    rw [(lookupStr_single h1).1, (lookupStr_single h2).1]
  obtain ⟨dm', h1, h2, h3⟩ := C4_depends_on_rewrite
    [("depends_on", Yaml.map
      [("b", Yaml.map [("condition", Yaml.str "service_healthy")]),
       ("c", Yaml.map [("condition", Yaml.str "service_started")])])]
    [("b", "b-app")]
    [("b", Yaml.map [("condition", Yaml.str "service_healthy")]),
     ("c", Yaml.map [("condition", Yaml.str "service_started")])]
    rfl (by decide) (by decide) hinj
  refine ⟨dm', h1, ?_, ?_, ?_⟩
  · exact (h2 ("b", Yaml.map [("condition", Yaml.str "service_healthy")]) (by simp)
      "b-app" rfl rfl).1
  · exact (h2 ("b", Yaml.map [("condition", Yaml.str "service_healthy")]) (by simp)
      "b-app" rfl rfl).2
  · exact h3 ("c", Yaml.map [("condition", Yaml.str "service_started")]) (by simp)
      (Or.inl rfl)


/-! ## Key-preservation lemmas for the derive rewrite helpers -/

theorem string_ne_append_app (s : String) : s ≠ s ++ "-app" := by
  intro h
  have h2 : s.length = (s ++ "-app").length := by rw [← h]
  have h4 : ("-app" : String).length = 4 := rfl
  rw [String.length_append, h4] at h2
  omega

theorem string_append_app_cancel {a b : String} (h : a ++ "-app" = b ++ "-app") :
    a = b := by
  have hd := congrArg String.data h
  rw [String.data_append, String.data_append] at hd
  exact String.ext (List.append_cancel_right hd)

theorem keys_mAdjust (m : Mapping) (k : String) (f : Yaml → Yaml) :
    (mAdjust m k f).map Prod.fst = m.map Prod.fst := by
  induction m with
  | nil => rfl
  | cons e rest ih =>
    obtain ⟨k0, v0⟩ := e
    by_cases h : k0 = k
    · subst h
      have hhead : mAdjust ((k0, v0) :: rest) k0 f = (k0, f v0) :: mAdjust rest k0 f := by
        unfold mAdjust
        rw [List.map_cons]
        congr 1
        simp
      rw [hhead, List.map_cons, List.map_cons, ih]
    · have hhead : mAdjust ((k0, v0) :: rest) k f = (k0, v0) :: mAdjust rest k f := by
        unfold mAdjust
        rw [List.map_cons]
        congr 1
        simp [h]
      rw [hhead, List.map_cons, List.map_cons, ih]

theorem mget_mAdjust_ne (m : Mapping) {k k' : String} (f : Yaml → Yaml) (h : k' ≠ k) :
    mget (mAdjust m k f) k' = mget m k' := by
  induction m with
  | nil => rfl
  | cons e rest ih =>
    obtain ⟨k0, v0⟩ := e
    by_cases h0 : k0 = k
    · subst h0
      have hhead : mAdjust ((k0, v0) :: rest) k0 f = (k0, f v0) :: mAdjust rest k0 f := by
        unfold mAdjust
        rw [List.map_cons]
        congr 1
        simp
      rw [hhead]
      simp [mget, Ne.symm h, ih]
    · have hhead : mAdjust ((k0, v0) :: rest) k f = (k0, v0) :: mAdjust rest k f := by
        unfold mAdjust
        rw [List.map_cons]
        congr 1
        simp [h0]
      rw [hhead]
      by_cases h1 : k0 = k'
      · simp [mget, h1]
      · simp [mget, h1, ih]

theorem mget_rewrite_build_ne (s : Mapping) (b : String) (hm : Option String)
    {k : String} (h : k ≠ "build") : mget (rewrite_build s b hm) k = mget s k := by
  unfold rewrite_build
  split
  · split
    · exact mget_mAdjust_ne _ _ h
    · rfl
  · exact mget_mAdjust_ne _ _ h
  · rfl

theorem mget_rewrite_env_files_ne (s : Mapping) (b : String) (hm : Option String)
    {k : String} (h : k ≠ "env_file") : mget (rewrite_env_files s b hm) k = mget s k := by
  unfold rewrite_env_files
  split
  · split
    · exact mget_mAdjust_ne _ _ h
    · rfl
  · exact mget_mAdjust_ne _ _ h
  · rfl

theorem mget_rewrite_volumes_ne (s : Mapping) (b : String) (hm : Option String)
    {k : String} (h : k ≠ "volumes") : mget (rewrite_volumes s b hm) k = mget s k := by
  unfold rewrite_volumes
  split
  · exact mget_mAdjust_ne _ _ h
  · rfl

theorem mget_rewrite_extends_ne (s : Mapping) (b : String) (hm : Option String)
    {k : String} (h : k ≠ "extends") : mget (rewrite_extends s b hm) k = mget s k := by
  unfold rewrite_extends
  split
  · split
    · split
      · exact mget_mAdjust_ne _ _ h
      · rfl
    · rfl
  · rfl

theorem mget_rewrite_service_paths_ne (s : Mapping) (b : String) (hm : Option String)
    {k : String} (h1 : k ≠ "build") (h2 : k ≠ "env_file") (h3 : k ≠ "volumes")
    (h4 : k ≠ "extends") : mget (rewrite_service_paths s b hm) k = mget s k := by
  unfold rewrite_service_paths
  rw [mget_rewrite_extends_ne _ _ _ h4, mget_rewrite_volumes_ne _ _ _ h3,
    mget_rewrite_env_files_ne _ _ _ h2, mget_rewrite_build_ne _ _ _ h1]

theorem keys_minsert_of_mget_some (m : Mapping) (k : String) (v : Yaml)
    (h : (mget m k).isSome = true) :
    (minsert m k v).map Prod.fst = m.map Prod.fst := by
  induction m with
  | nil => simp [mget] at h
  | cons e rest ih =>
    obtain ⟨k0, v0⟩ := e
    by_cases h0 : k0 = k
    · subst h0
      simp [minsert]
    · simp only [mget, h0, if_neg h0] at h
      simp [minsert, h0, ih h]

theorem keys_rewrite_build (s : Mapping) (b : String) (hm : Option String) :
    (rewrite_build s b hm).map Prod.fst = s.map Prod.fst := by
  unfold rewrite_build
  split
  · split
    · exact keys_mAdjust _ _ _
    · rfl
  · exact keys_mAdjust _ _ _
  · rfl

theorem keys_rewrite_env_files (s : Mapping) (b : String) (hm : Option String) :
    (rewrite_env_files s b hm).map Prod.fst = s.map Prod.fst := by
  unfold rewrite_env_files
  split
  · split
    · exact keys_mAdjust _ _ _
    · rfl
  · exact keys_mAdjust _ _ _
  · rfl

theorem keys_rewrite_volumes (s : Mapping) (b : String) (hm : Option String) :
    (rewrite_volumes s b hm).map Prod.fst = s.map Prod.fst := by
  unfold rewrite_volumes
  split
  · exact keys_mAdjust _ _ _
  · rfl

theorem keys_rewrite_extends (s : Mapping) (b : String) (hm : Option String) :
    (rewrite_extends s b hm).map Prod.fst = s.map Prod.fst := by
  unfold rewrite_extends
  split
  · split
    · split
      · exact keys_mAdjust _ _ _
      · rfl
    · rfl
  · rfl

theorem keys_rewrite_service_paths (s : Mapping) (b : String) (hm : Option String) :
    (rewrite_service_paths s b hm).map Prod.fst = s.map Prod.fst := by
  unfold rewrite_service_paths
  rw [keys_rewrite_extends, keys_rewrite_volumes, keys_rewrite_env_files,
    keys_rewrite_build]

theorem mget_add_label_ne (n : LabelNames) (sts : Yaml → String) (s : Mapping)
    (key value : String) {k : String} (h : k ≠ "labels") :
    mget (add_label n sts s key value) k = mget s k := by
  unfold add_label
  split
  · split
    · exact mget_mAdjust_ne _ _ h
    · exact mget_minsert_ne _ _ h
    · exact mget_minsert_ne _ _ h
  · split
    · exact mget_mAdjust_ne _ _ h
    · exact mget_mAdjust_ne _ _ h
    · exact mget_minsert_ne _ _ h

theorem mget_add_run_labels_ne (n : LabelNames) (sts : Yaml → String)
    (rl : RunLabelContext) (s : Mapping) (sn : String) {k : String}
    (h : k ≠ "labels") :
    mget (add_run_labels n sts rl s sn) k = mget s k := by
  unfold add_run_labels
  rw [mget_add_label_ne _ _ _ _ _ h, mget_add_label_ne _ _ _ _ _ h,
    mget_add_label_ne _ _ _ _ _ h, mget_add_label_ne _ _ _ _ _ h,
    mget_add_label_ne _ _ _ _ _ h, mget_add_label_ne _ _ _ _ _ h]

theorem mget_ensure_env_var_ne (s : Mapping) (key value : String) {k : String}
    (h : k ≠ "environment") : mget (ensure_env_var s key value) k = mget s k := by
  unfold ensure_env_var
  split
  · split
    · rfl
    · exact mget_mAdjust_ne _ _ h
  · split
    · rfl
    · exact mget_mAdjust_ne _ _ h
  · exact mget_minsert_ne _ _ h

theorem mget_merge_env_var_ne (s : Mapping) (key value : String) {k : String}
    (h : k ≠ "environment") : mget (merge_env_var s key value) k = mget s k := by
  unfold merge_env_var
  split
  · split
    · exact mget_mAdjust_ne _ _ h
    · exact mget_mAdjust_ne _ _ h
  · exact mget_mAdjust_ne _ _ h
  · exact mget_minsert_ne _ _ h

theorem mget_inject_egress_env_ne (s : Mapping) (npv : String) {k : String}
    (h : k ≠ "environment") : mget (inject_egress_env s npv) k = mget s k := by
  unfold inject_egress_env
  rw [mget_merge_env_var_ne _ _ _ h, mget_ensure_env_var_ne _ _ _ h,
    mget_ensure_env_var_ne _ _ _ h]

theorem mget_ensure_expose_ports_ne (s : Mapping) (ports : List Nat)
    (oe : Option Yaml) {k : String} (h : k ≠ "expose") :
    mget (ensure_expose_ports s ports oe) k = mget s k := by
  unfold ensure_expose_ports
  split
  · exact mget_minsert_ne _ _ h
  · rfl

theorem mget_add_envoy_entrypoint_ne (s : Mapping) {k : String}
    (h1 : k ≠ "entrypoint") (h2 : k ≠ "command") :
    mget (add_envoy_entrypoint s) k = mget s k := by
  unfold add_envoy_entrypoint
  rw [mget_minsert_ne _ _ h2, mget_minsert_ne _ _ h1]

theorem mget_rewrite_depends_on_ne (s : Mapping) (pm : List (String × String))
    {k : String} (h : k ≠ "depends_on") :
    mget (rewrite_depends_on_for_proxies s pm) k = mget s k := by
  unfold rewrite_depends_on_for_proxies
  split
  · exact mget_mAdjust_ne _ _ h
  · rfl


/-- One service-loop iteration of `derive_compose`: a service kept as-is when
its network mode is host/none, it has no extracted ports, or it opts out with
`off`; otherwise the proxy/app pair is inserted, the proxy carrying the
original `ports` entry and the app service losing it. -/
theorem derive_step_self (ctx : DeriveCtx) (services : Mapping) (noProxyValue : String)
    (acc : DeriveAcc) (name : String) (service0 : Mapping) (service : Mapping)
    (hservice : mget services name = some (.map service0))
    (hsp : service = rewrite_service_paths service0 ctx.baseDir ctx.home)
    (hnd : (service0.map Prod.fst).Nodup) :
    ((get_string service "network_mode" = some "host" ∨
        get_string service "network_mode" = some "none" ∨
        extract_ports service = [] ∨
        read_proxy_protocol service = some "off") →
      ∃ s, (derive_service_step ctx services noProxyValue acc name).newServices =
          minsert acc.newServices name (.map s)) ∧
    (¬(get_string service "network_mode" = some "host" ∨
        get_string service "network_mode" = some "none" ∨
        extract_ports service = [] ∨
        read_proxy_protocol service = some "off") →
      ∃ proxy app',
        (derive_service_step ctx services noProxyValue acc name).newServices =
          minsert (minsert acc.newServices name (.map proxy)) (name ++ "-app")
            (.map app') ∧
        mget proxy "ports" = mget service0 "ports" ∧
        mget app' "ports" = none) := by
  have hnds : (service.map Prod.fst).Nodup := by
    rw [hsp, keys_rewrite_service_paths]
    exact hnd
  have hps : mget service "ports" = mget service0 "ports" := by
    rw [hsp]
    exact mget_rewrite_service_paths_ne _ _ _ (by decide) (by decide) (by decide)
      (by decide)
  simp only [derive_service_step, hservice, Option.getD_some]
  rw [← hsp]
  by_cases h1 : (get_string service "network_mode" = some "host" ∨
      get_string service "network_mode" = some "none")
  · rw [if_pos h1]
    refine ⟨fun _ => ⟨_, rfl⟩, fun hn => ?_⟩
    rcases h1 with hA | hB
    · exact absurd (Or.inl hA) hn
    · exact absurd (Or.inr (Or.inl hB)) hn
  · rw [if_neg h1]
    by_cases h2 : extract_ports service = []
    · have h2b : (extract_ports service).isEmpty = true := by simp [h2]
      rw [if_pos h2b]
      refine ⟨fun _ => ⟨_, rfl⟩, fun hn => absurd (Or.inr (Or.inr (Or.inl h2))) hn⟩
    · have h2b : ¬ (extract_ports service).isEmpty = true := by
        simp [List.isEmpty_iff, h2]
      rw [if_neg h2b]
      by_cases h3 : read_proxy_protocol service = some "off"
      · rw [if_pos h3]
        refine ⟨fun _ => ⟨_, rfl⟩, fun hn => absurd (Or.inr (Or.inr (Or.inr h3))) hn⟩
      · rw [if_neg h3]
        refine ⟨fun hs => ?_, fun _ => ?_⟩
        · rcases hs with hA | hB | hC | hD
          · exact absurd (Or.inl hA) h1
          · exact absurd (Or.inr hB) h1
          · exact absurd hC h2
          · exact absurd hD h3
        · refine ⟨_, _, rfl, ?_, ?_⟩
          · rw [← hps]
            rw [mget_add_run_labels_ne _ _ _ _ _ (by decide),
              mget_add_label_ne _ _ _ _ _ (by decide),
              mget_add_label_ne _ _ _ _ _ (by decide),
              mget_minsert_ne _ _ (by decide)]
            cases hbe : build_expose_value (extract_ports service)
                (mget (mSwapRemove service "ports") "expose") with
            | some e =>
              rw [mget_minsert_ne _ _ (by decide)]
              cases hcn : mget (mSwapRemove (mSwapRemove service "ports") "expose")
                  "container_name" with
              | some cn =>
                rw [mget_minsert_ne _ _ (by decide)]
                cases hop : mget service "ports" with
                | some pv => exact mget_minsert_self _ _ _
                | none =>
                  rw [mget_minsert_ne _ _ (by decide)]
                  cases hnw : mget (mSwapRemove (mSwapRemove (mSwapRemove service "ports")
                      "expose") "container_name") "networks" with
                  | some nw =>
                    rw [mget_minsert_ne _ _ (by decide)]
                    cases hrs : mget (mSwapRemove (mSwapRemove (mSwapRemove service "ports")
                        "expose") "container_name") "restart" with
                    | some rs =>
                      rw [mget_minsert_ne _ _ (by decide)]
                      by_cases hdp : ctx.cfg.disablePods = true
                      · rw [if_pos hdp, mget_add_envoy_entrypoint_ne _ (by decide) (by decide)]
                        rfl
                      · rw [if_neg hdp]
                        rfl
                    | none =>
                      by_cases hdp : ctx.cfg.disablePods = true
                      · rw [if_pos hdp, mget_add_envoy_entrypoint_ne _ (by decide) (by decide)]
                        rfl
                      · rw [if_neg hdp]
                        rfl
                  | none =>
                    cases hrs : mget (mSwapRemove (mSwapRemove (mSwapRemove service "ports")
                        "expose") "container_name") "restart" with
                    | some rs =>
                      rw [mget_minsert_ne _ _ (by decide)]
                      by_cases hdp : ctx.cfg.disablePods = true
                      · rw [if_pos hdp, mget_add_envoy_entrypoint_ne _ (by decide) (by decide)]
                        rfl
                      · rw [if_neg hdp]
                        rfl
                    | none =>
                      by_cases hdp : ctx.cfg.disablePods = true
                      · rw [if_pos hdp, mget_add_envoy_entrypoint_ne _ (by decide) (by decide)]
                        rfl
                      · rw [if_neg hdp]
                        rfl
              | none =>
                cases hop : mget service "ports" with
                | some pv => exact mget_minsert_self _ _ _
                | none =>
                  rw [mget_minsert_ne _ _ (by decide)]
                  cases hnw : mget (mSwapRemove (mSwapRemove (mSwapRemove service "ports")
                      "expose") "container_name") "networks" with
                  | some nw =>
                    rw [mget_minsert_ne _ _ (by decide)]
                    cases hrs : mget (mSwapRemove (mSwapRemove (mSwapRemove service "ports")
                        "expose") "container_name") "restart" with
                    | some rs =>
                      rw [mget_minsert_ne _ _ (by decide)]
                      by_cases hdp : ctx.cfg.disablePods = true
                      · rw [if_pos hdp, mget_add_envoy_entrypoint_ne _ (by decide) (by decide)]
                        rfl
                      · rw [if_neg hdp]
                        rfl
                    | none =>
                      by_cases hdp : ctx.cfg.disablePods = true
                      · rw [if_pos hdp, mget_add_envoy_entrypoint_ne _ (by decide) (by decide)]
                        rfl
                      · rw [if_neg hdp]
                        rfl
                  | none =>
                    cases hrs : mget (mSwapRemove (mSwapRemove (mSwapRemove service "ports")
                        "expose") "container_name") "restart" with
                    | some rs =>
                      rw [mget_minsert_ne _ _ (by decide)]
                      by_cases hdp : ctx.cfg.disablePods = true
                      · rw [if_pos hdp, mget_add_envoy_entrypoint_ne _ (by decide) (by decide)]
                        rfl
                      · rw [if_neg hdp]
                        rfl
                    | none =>
                      by_cases hdp : ctx.cfg.disablePods = true
                      · rw [if_pos hdp, mget_add_envoy_entrypoint_ne _ (by decide) (by decide)]
                        rfl
                      · rw [if_neg hdp]
                        rfl
            | none =>
              cases hcn : mget (mSwapRemove (mSwapRemove service "ports") "expose")
                  "container_name" with
              | some cn =>
                rw [mget_minsert_ne _ _ (by decide)]
                cases hop : mget service "ports" with
                | some pv => exact mget_minsert_self _ _ _
                | none =>
                  rw [mget_minsert_ne _ _ (by decide)]
                  cases hnw : mget (mSwapRemove (mSwapRemove (mSwapRemove service "ports")
                      "expose") "container_name") "networks" with
                  | some nw =>
                    rw [mget_minsert_ne _ _ (by decide)]
                    cases hrs : mget (mSwapRemove (mSwapRemove (mSwapRemove service "ports")
                        "expose") "container_name") "restart" with
                    | some rs =>
                      rw [mget_minsert_ne _ _ (by decide)]
                      by_cases hdp : ctx.cfg.disablePods = true
                      · rw [if_pos hdp, mget_add_envoy_entrypoint_ne _ (by decide) (by decide)]
                        rfl
                      · rw [if_neg hdp]
                        rfl
                    | none =>
                      by_cases hdp : ctx.cfg.disablePods = true
                      · rw [if_pos hdp, mget_add_envoy_entrypoint_ne _ (by decide) (by decide)]
                        rfl
                      · rw [if_neg hdp]
                        rfl
                  | none =>
                    cases hrs : mget (mSwapRemove (mSwapRemove (mSwapRemove service "ports")
                        "expose") "container_name") "restart" with
                    | some rs =>
                      rw [mget_minsert_ne _ _ (by decide)]
                      by_cases hdp : ctx.cfg.disablePods = true
                      · rw [if_pos hdp, mget_add_envoy_entrypoint_ne _ (by decide) (by decide)]
                        rfl
                      · rw [if_neg hdp]
                        rfl
                    | none =>
                      by_cases hdp : ctx.cfg.disablePods = true
                      · rw [if_pos hdp, mget_add_envoy_entrypoint_ne _ (by decide) (by decide)]
                        rfl
                      · rw [if_neg hdp]
                        rfl
              | none =>
                cases hop : mget service "ports" with
                | some pv => exact mget_minsert_self _ _ _
                | none =>
                  rw [mget_minsert_ne _ _ (by decide)]
                  cases hnw : mget (mSwapRemove (mSwapRemove (mSwapRemove service "ports")
                      "expose") "container_name") "networks" with
                  | some nw =>
                    rw [mget_minsert_ne _ _ (by decide)]
                    cases hrs : mget (mSwapRemove (mSwapRemove (mSwapRemove service "ports")
                        "expose") "container_name") "restart" with
                    | some rs =>
                      rw [mget_minsert_ne _ _ (by decide)]
                      by_cases hdp : ctx.cfg.disablePods = true
                      · rw [if_pos hdp, mget_add_envoy_entrypoint_ne _ (by decide) (by decide)]
                        rfl
                      · rw [if_neg hdp]
                        rfl
                    | none =>
                      by_cases hdp : ctx.cfg.disablePods = true
                      · rw [if_pos hdp, mget_add_envoy_entrypoint_ne _ (by decide) (by decide)]
                        rfl
                      · rw [if_neg hdp]
                        rfl
                  | none =>
                    cases hrs : mget (mSwapRemove (mSwapRemove (mSwapRemove service "ports")
                        "expose") "container_name") "restart" with
                    | some rs =>
                      rw [mget_minsert_ne _ _ (by decide)]
                      by_cases hdp : ctx.cfg.disablePods = true
                      · rw [if_pos hdp, mget_add_envoy_entrypoint_ne _ (by decide) (by decide)]
                        rfl
                      · rw [if_neg hdp]
                        rfl
                    | none =>
                      by_cases hdp : ctx.cfg.disablePods = true
                      · rw [if_pos hdp, mget_add_envoy_entrypoint_ne _ (by decide) (by decide)]
                        rfl
                      · rw [if_neg hdp]
                        rfl
          · split
            · rw [mget_inject_egress_env_ne _ _ (by decide),
                mget_add_run_labels_ne _ _ _ _ _ (by decide),
                mget_add_label_ne _ _ _ _ _ (by decide),
                mget_add_label_ne _ _ _ _ _ (by decide),
                mget_ensure_expose_ports_ne _ _ _ (by decide),
                mget_mSwapRemove_ne (nodup_keys_mSwapRemove
                  (nodup_keys_mSwapRemove hnds "ports") "expose") (by decide),
                mget_mSwapRemove_ne (nodup_keys_mSwapRemove hnds "ports") (by decide),
                mget_mSwapRemove_self hnds]
            · rw [mget_add_run_labels_ne _ _ _ _ _ (by decide),
                mget_add_label_ne _ _ _ _ _ (by decide),
                mget_add_label_ne _ _ _ _ _ (by decide),
                mget_ensure_expose_ports_ne _ _ _ (by decide),
                mget_mSwapRemove_ne (nodup_keys_mSwapRemove
                  (nodup_keys_mSwapRemove hnds "ports") "expose") (by decide),
                mget_mSwapRemove_ne (nodup_keys_mSwapRemove hnds "ports") (by decide),
                mget_mSwapRemove_self hnds]


theorem mget_derive_step_other (ctx : DeriveCtx) (services : Mapping)
    (noProxyValue : String) (acc : DeriveAcc) (name : String) {k : String}
    (h1 : k ≠ name) (h2 : k ≠ name ++ "-app") :
    mget (derive_service_step ctx services noProxyValue acc name).newServices k =
      mget acc.newServices k := by
  simp only [derive_service_step]
  cases hsv : (mget services name).getD Yaml.null with
  | map service0 =>
    dsimp only
    split
    · exact mget_minsert_ne _ _ h1
    · split
      · exact mget_minsert_ne _ _ h1
      · split
        · exact mget_minsert_ne _ _ h1
        · rw [mget_minsert_ne _ _ h2]
          exact mget_minsert_ne _ _ h1
  | str v => exact mget_minsert_ne _ _ h1
  | int v => exact mget_minsert_ne _ _ h1
  | bool v => exact mget_minsert_ne _ _ h1
  | null => exact mget_minsert_ne _ _ h1
  | seq items => exact mget_minsert_ne _ _ h1

theorem mget_derive_fold_other (ctx : DeriveCtx) (services : Mapping)
    (noProxyValue : String) (names : List String) :
    ∀ (acc : DeriveAcc) {k : String},
      (∀ n ∈ names, k ≠ n ∧ k ≠ n ++ "-app") →
      mget (names.foldl (derive_service_step ctx services noProxyValue) acc).newServices k
        = mget acc.newServices k := by
  induction names with
  | nil =>
    intro acc k _
    rfl
  | cons m rest ih =>
    intro acc k h
    rw [List.foldl_cons, ih _ (fun n hn => h n (List.mem_cons_of_mem _ hn))]
    exact mget_derive_step_other _ _ _ _ _ (h m (List.mem_cons_self _ _)).1
      (h m (List.mem_cons_self _ _)).2

/-- The service loop of `derive_compose`, described name by name: under
distinct names, no `<name>-app` collisions and no pre-existing app keys,
every processed service lands either as-is under its own name (skip cases)
or as the proxy/app pair. -/
theorem derive_fold_spec (ctx : DeriveCtx) (services : Mapping) (noProxyValue : String)
    (names : List String) :
    ∀ (acc0 : DeriveAcc),
      names.Nodup →
      (∀ n ∈ names, ∀ m ∈ names, m ++ "-app" ≠ n) →
      (∀ n ∈ names, mget acc0.newServices (n ++ "-app") = none) →
      ∀ n ∈ names, ∀ service0 : Mapping, mget services n = some (.map service0) →
        (service0.map Prod.fst).Nodup →
        ((get_string (rewrite_service_paths service0 ctx.baseDir ctx.home)
            "network_mode" = some "host" ∨
          get_string (rewrite_service_paths service0 ctx.baseDir ctx.home)
            "network_mode" = some "none" ∨
          extract_ports (rewrite_service_paths service0 ctx.baseDir ctx.home) = [] ∨
          read_proxy_protocol (rewrite_service_paths service0 ctx.baseDir ctx.home)
            = some "off") →
          ∃ s, mget (names.foldl (derive_service_step ctx services noProxyValue)
              acc0).newServices n = some (.map s) ∧
            mget (names.foldl (derive_service_step ctx services noProxyValue)
              acc0).newServices (n ++ "-app") = none) ∧
        (¬(get_string (rewrite_service_paths service0 ctx.baseDir ctx.home)
            "network_mode" = some "host" ∨
          get_string (rewrite_service_paths service0 ctx.baseDir ctx.home)
            "network_mode" = some "none" ∨
          extract_ports (rewrite_service_paths service0 ctx.baseDir ctx.home) = [] ∨
          read_proxy_protocol (rewrite_service_paths service0 ctx.baseDir ctx.home)
            = some "off") →
          ∃ proxy app',
            mget (names.foldl (derive_service_step ctx services noProxyValue)
              acc0).newServices n = some (.map proxy) ∧
            mget (names.foldl (derive_service_step ctx services noProxyValue)
              acc0).newServices (n ++ "-app") = some (.map app') ∧
            mget proxy "ports" = mget service0 "ports" ∧
            mget app' "ports" = none) := by
  induction names with
  | nil =>
    intro acc0 _ _ _ n hn
    exact absurd hn (by simp)
  | cons m rest ih =>
    intro acc0 hnodup happ hpre n hn service0 hsvc hnd0
    obtain ⟨hm_rest, hnodup'⟩ := List.nodup_cons.mp hnodup
    rw [List.foldl_cons]
    rcases List.mem_cons.mp hn with h1 | h1
    · subst h1
      have hstep := derive_step_self ctx services noProxyValue acc0 n service0
        (rewrite_service_paths service0 ctx.baseDir ctx.home) hsvc rfl hnd0
      have hpres : ∀ k, (∀ n' ∈ rest, k ≠ n' ∧ k ≠ n' ++ "-app") →
          mget (rest.foldl (derive_service_step ctx services noProxyValue)
            (derive_service_step ctx services noProxyValue acc0 n)).newServices k =
          mget (derive_service_step ctx services noProxyValue acc0 n).newServices k :=
        fun k hk => mget_derive_fold_other ctx services noProxyValue rest _ hk
      have hcond_n : ∀ n' ∈ rest, n ≠ n' ∧ n ≠ n' ++ "-app" := by
        intro n' hn'
        refine ⟨?_, ?_⟩
        · intro he
          exact hm_rest (he ▸ hn')
        · intro he
          exact (happ n (List.mem_cons_self _ _) n' (List.mem_cons_of_mem _ hn')) he.symm
      have hcond_napp : ∀ n' ∈ rest, n ++ "-app" ≠ n' ∧ n ++ "-app" ≠ n' ++ "-app" := by
        intro n' hn'
        refine ⟨?_, ?_⟩
        · exact happ n' (List.mem_cons_of_mem _ hn') n (List.mem_cons_self _ _)
        · intro he
          have hc := string_append_app_cancel he
          exact hm_rest (hc ▸ hn')
      constructor
      · intro hskip
        obtain ⟨s, hs⟩ := hstep.1 hskip
        refine ⟨s, ?_, ?_⟩
        · rw [hpres n hcond_n, hs, mget_minsert_self]
        · rw [hpres (n ++ "-app") hcond_napp, hs,
            mget_minsert_ne _ _ (Ne.symm (string_ne_append_app n))]
          exact hpre n (List.mem_cons_self _ _)
      · intro hns
        obtain ⟨proxy, app', hrec, hpp, hap⟩ := hstep.2 hns
        refine ⟨proxy, app', ?_, ?_, hpp, hap⟩
        · rw [hpres n hcond_n, hrec,
            mget_minsert_ne _ _ (string_ne_append_app n), mget_minsert_self]
        · rw [hpres (n ++ "-app") hcond_napp, hrec, mget_minsert_self]
    · have hpre1 : ∀ n' ∈ rest,
          mget (derive_service_step ctx services noProxyValue acc0 m).newServices
            (n' ++ "-app") = none := by
        intro n' hn'
        rw [mget_derive_step_other _ _ _ _ _
          (happ m (List.mem_cons_self _ _) n' (List.mem_cons_of_mem _ hn'))
          (fun he => hm_rest ((string_append_app_cancel he) ▸ hn'))]
        exact hpre n' (List.mem_cons_of_mem _ hn')
      exact ih _ hnodup'
        (fun a ha b hb => happ a (List.mem_cons_of_mem _ ha) b (List.mem_cons_of_mem _ hb))
        hpre1 n h1 service0 hsvc hnd0


theorem mget_depends_pass_map (ns : Mapping) (pm : List (String × String)) (k : String)
    (s : Mapping) (h : mget ns k = some (.map s)) :
    mget (ns.map (fun e =>
      match e.2 with
      | .map service => (e.1, Yaml.map (rewrite_depends_on_for_proxies service pm))
      | _ => e)) k = some (.map (rewrite_depends_on_for_proxies s pm)) := by
  induction ns with
  | nil => simp [mget] at h
  | cons e rest ih =>
    obtain ⟨k0, v0⟩ := e
    rw [List.map_cons]
    by_cases h0 : k0 = k
    · have hv : v0 = Yaml.map s := by
        have h' := h
        simp [mget, h0] at h'
        exact h'
      subst hv
      simp [mget, h0]
    · have h' : mget rest k = some (.map s) := by
        have h2 := h
        simp [mget, h0] at h2
        exact h2
      cases v0 <;> simp [mget, h0, ih h']

theorem mget_depends_pass_none (ns : Mapping) (pm : List (String × String)) (k : String)
    (h : mget ns k = none) :
    mget (ns.map (fun e =>
      match e.2 with
      | .map service => (e.1, Yaml.map (rewrite_depends_on_for_proxies service pm))
      | _ => e)) k = none := by
  induction ns with
  | nil => rfl
  | cons e rest ih =>
    obtain ⟨k0, v0⟩ := e
    rw [List.map_cons]
    have h0 : k0 ≠ k := by
      intro he
      simp [mget, he] at h
    have h' : mget rest k = none := by
      have h2 := h
      simp [mget, h0] at h2
      exact h2
    cases v0 <;> simp [mget, h0, ih h']

theorem mget_derive_egress_other (ctx : DeriveCtx) (networkNames : List String)
    (acc : DeriveAcc) {k : String} (h : k ≠ "sanelens-egress-proxy") :
    mget (derive_egress_block ctx networkNames acc).newServices k =
      mget acc.newServices k := by
  unfold derive_egress_block
  split
  · exact mget_minsert_ne _ _ h
  · rfl

theorem proxyAppMap_derive_egress (ctx : DeriveCtx) (networkNames : List String)
    (acc : DeriveAcc) :
    (derive_egress_block ctx networkNames acc).proxyAppMap = acc.proxyAppMap := by
  unfold derive_egress_block
  split
  · rfl
  · rfl


/-- Claim C1 (amended): with traffic enabled, distinct sorted service names,
no `<name>-app` or egress-name collisions, and unique keys per service
mapping, each original service appears in the derived services either as-is
under its own name (when its network mode is host or none, when no container
port can be extracted from its `ports` and `expose` entries, or when its
proxy label opts out with `off`) — with no `<name>-app` entry — or as a
proxy/app pair where the proxy carries the original `ports` entry and the
app service has none.  The skip guard tests the ports extracted from both
`ports` and `expose`, not just published ports: an expose-only service is
split, as `C1_counterexample` shows. -/
theorem C1_derive_proxy_split (ctx : DeriveCtx) (doc : Mapping) (svMap : Mapping)
    (htraffic : ctx.cfg.enableTraffic = true)
    (hdoc : mget doc "services" = some (.map svMap))
    (hnodup : (sortStrings (svMap.map Prod.fst)).Nodup)
    (happ : ∀ n ∈ sortStrings (svMap.map Prod.fst),
      ∀ m ∈ sortStrings (svMap.map Prod.fst), m ++ "-app" ≠ n)
    (hegress : ∀ n ∈ sortStrings (svMap.map Prod.fst),
      n ≠ "sanelens-egress-proxy" ∧ n ++ "-app" ≠ "sanelens-egress-proxy") :
    ∃ ds, derive_compose_services ctx doc = .ok ds ∧
      ∀ n ∈ sortStrings (svMap.map Prod.fst), ∀ service0 : Mapping,
        mget svMap n = some (.map service0) →
        (service0.map Prod.fst).Nodup →
        ((get_string (rewrite_service_paths service0 ctx.baseDir ctx.home)
            "network_mode" = some "host" ∨
          get_string (rewrite_service_paths service0 ctx.baseDir ctx.home)
            "network_mode" = some "none" ∨
          extract_ports (rewrite_service_paths service0 ctx.baseDir ctx.home) = [] ∨
          read_proxy_protocol (rewrite_service_paths service0 ctx.baseDir ctx.home)
            = some "off") →
          ∃ s, mget ds.services n = some (.map s) ∧
            mget ds.services (n ++ "-app") = none) ∧
        (¬(get_string (rewrite_service_paths service0 ctx.baseDir ctx.home)
            "network_mode" = some "host" ∨
          get_string (rewrite_service_paths service0 ctx.baseDir ctx.home)
            "network_mode" = some "none" ∨
          extract_ports (rewrite_service_paths service0 ctx.baseDir ctx.home) = [] ∨
          read_proxy_protocol (rewrite_service_paths service0 ctx.baseDir ctx.home)
            = some "off") →
          ∃ proxy app',
            mget ds.services n = some (.map proxy) ∧
            mget ds.services (n ++ "-app") = some (.map app') ∧
            mget proxy "ports" = mget service0 "ports" ∧
            mget app' "ports" = none) := by
  have hcoll : collect_service_names doc = .ok (sortStrings (svMap.map Prod.fst)) := by
    unfold collect_service_names
    rw [hdoc]
  simp only [derive_compose_services, htraffic, if_true, hcoll, hdoc, Bool.not_true]
  refine ⟨_, rfl, ?_⟩
  intro n hn service0 hsvc hnd0
  have hfold := derive_fold_spec ctx svMap
    (String.intercalate "," (sortStrings (svMap.map Prod.fst) ++ ["localhost", "127.0.0.1"]))
    (sortStrings (svMap.map Prod.fst))
    { newServices := [], proxyServices := [], appServiceMap := [], proxyAppMap := [] }
    hnodup happ (fun _ _ => rfl) n hn service0 hsvc hnd0
  constructor
  · intro hskip
    obtain ⟨s, hs1, hs2⟩ := hfold.1 hskip
    rw [← mget_derive_egress_other ctx (collect_network_names doc) _
      (hegress n hn).1] at hs1
    rw [← mget_derive_egress_other ctx (collect_network_names doc) _
      (hegress n hn).2] at hs2
    exact ⟨_, mget_depends_pass_map _ _ _ _ hs1, mget_depends_pass_none _ _ _ hs2⟩
  · intro hns
    obtain ⟨proxy, app', hp1, hp2, hpp, hap⟩ := hfold.2 hns
    rw [← mget_derive_egress_other ctx (collect_network_names doc) _
      (hegress n hn).1] at hp1
    rw [← mget_derive_egress_other ctx (collect_network_names doc) _
      (hegress n hn).2] at hp2
    refine ⟨_, _, mget_depends_pass_map _ _ _ _ hp1,
      mget_depends_pass_map _ _ _ _ hp2, ?_, ?_⟩
    · rw [mget_rewrite_depends_on_ne _ _ (by decide)]
      exact hpp
    · rw [mget_rewrite_depends_on_ne _ _ (by decide)]
      exact hap


theorem C1_derive_proxy_split_witness :
    ∃ ds, derive_compose_services sampleDeriveCtx
        [("services", Yaml.map
          [("api", Yaml.map [("ports", Yaml.seq [Yaml.str "8080:80"])]),
           ("db", Yaml.map [("image", Yaml.str "postgres")])])] = .ok ds ∧
      (∃ proxy app', mget ds.services "api" = some (.map proxy) ∧
        mget ds.services "api-app" = some (.map app') ∧
        mget proxy "ports" = some (Yaml.seq [Yaml.str "8080:80"]) ∧
        mget app' "ports" = none) ∧
      (∃ s, mget ds.services "db" = some (.map s) ∧
        mget ds.services "db-app" = none) := by
  obtain ⟨ds, hok, hmain⟩ := C1_derive_proxy_split sampleDeriveCtx
    [("services", Yaml.map
      [("api", Yaml.map [("ports", Yaml.seq [Yaml.str "8080:80"])]),
       ("db", Yaml.map [("image", Yaml.str "postgres")])])]
    [("api", Yaml.map [("ports", Yaml.seq [Yaml.str "8080:80"])]),
     ("db", Yaml.map [("image", Yaml.str "postgres")])]
    rfl rfl (by decide) (by decide) (by decide)
  refine ⟨ds, hok, ?_, ?_⟩
  · obtain ⟨proxy, app', h1, h2, h3, h4⟩ :=
      (hmain "api" (by decide) _ rfl (by decide)).2 (by decide)
    exact ⟨proxy, app', h1, h2, by rw [h3]; rfl, h4⟩
  · obtain ⟨s, h1, h2⟩ := (hmain "db" (by decide) _ rfl (by decide)).1 (by decide)
    exact ⟨s, h1, h2⟩

/-- Claim C1 is false as stated: a service whose only port information is an
`expose` entry has no published ports, yet `derive_compose` splits it into a
proxy/app pair because the skip guard tests `extract_ports`, which also
reads `expose`.  The derived services contain a `web-app` entry. -/
theorem C1_counterexample :
    mget [("expose", Yaml.seq [Yaml.str "9999"])] "ports" = none ∧
    ∃ ds, derive_compose_services sampleDeriveCtx
        [("services", Yaml.map
          [("web", Yaml.map [("expose", Yaml.seq [Yaml.str "9999"])])])] = .ok ds ∧
      (mget ds.services "web-app").isSome = true :=
  ⟨rfl, _, rfl, rfl⟩

end Sanelens
